import Mathlib

/-!
Shallow embedding of the bundle-sender loop of `src/builder/bundle_sender.rs`:
the fee-escalation protocol `send_bundle_with_increasing_gas_fees`, the bundle
construction `get_bundle_tx`, the passive per-block poll
`check_for_and_log_transaction_update`, and one iteration of
`send_bundles_in_loop`.

Machine integers (`U256`, `u64`, `usize`) are modelled as `Nat`; `low_u64`
takes the value mod `2 ^ 64`.  External collaborators (proposer, transaction
tracker, op pool, entry point) are modelled as an oracle environment indexed
by the attempt number; their calls, the emitted `BuilderEvent`s and the
incremented metrics are recorded in an output trace.
-/

namespace BundleSender

/-- The `common::gas::GasFees` record (two `U256` fields, modelled as `Nat`). -/
structure GasFees where
  max_fee_per_gas : Nat
  max_priority_fee_per_gas : Nat
deriving Repr, DecidableEq

/-- Modelled from the spec: `GasFees::increase_by_percent` lives in
`common::gas`, which is not under `src/`.  Spec §3: it returns both fields
raised by `⌈v·(100+p)/100⌉`. -/
def GasFees.increase_by_percent (f : GasFees) (p : Nat) : GasFees :=
  { max_fee_per_gas := (f.max_fee_per_gas * (100 + p) + 99) / 100
    max_priority_fee_per_gas := (f.max_priority_fee_per_gas * (100 + p) + 99) / 100 }

/-- Modelled from the spec: `common::math::increase_by_percent` is not under
`src/`.  Spec §4.3/§8: inflate by `p` percent, rounding up, i.e.
`⌈n·(100+p)/100⌉`. -/
def mathIncreaseByPercent (n p : Nat) : Nat := (n * (100 + p) + 99) / 100

/-- The `GAS_ESTIMATE_OVERHEAD_PERCENT` constant from `bundle_sender.rs`. -/
def GAS_ESTIMATE_OVERHEAD_PERCENT : Nat := 10

/-- The `U256::low_u64` projection. -/
def low64 (n : Nat) : Nat := n % 2 ^ 64

/-- Modelled from the spec: the transaction envelope built by
`EntryPointLike::get_send_bundle_transaction` (not under `src/`).  Spec §6:
EIP-1559 style fields; the envelope records the aggregated ops, beneficiary,
gas, fees handed to the entry point, plus the nonce set afterwards by
`get_bundle_tx`. -/
structure TypedTransaction where
  ops_per_aggregator : List (Nat × List Nat)
  beneficiary : Nat
  gas : Nat
  fees : GasFees
  nonce : Nat
deriving Repr, DecidableEq

/-- The `TypedTransaction::set_nonce` setter. -/
def TypedTransaction.set_nonce (tx : TypedTransaction) (n : Nat) : TypedTransaction :=
  { tx with nonce := n }

/-- Modelled from the spec: `GasFees::from(&TypedTransaction)` (in
`common::gas`, not under `src/`) reads the envelope's fee fields. -/
def gasFeesFromTx (tx : TypedTransaction) : GasFees := tx.fees

/-- Flatten the per-aggregator op groups in iteration order. -/
def opsFlat (l : List (Nat × List Nat)) : List Nat := (l.map Prod.snd).flatten

/-- Modelled from the spec: the proposer's `Bundle` (in `common::types`, not
under `src/`).  Spec §3: ordered `ops_per_aggregator` groups, `gas_estimate`,
`gas_fees`, `expected_storage`, `rejected_ops`, `rejected_entities`;
`is_empty()` iff it contains zero accepted ops.  User operations, entities and
storage snapshots are opaque and modelled as `Nat`. -/
structure Bundle where
  ops_per_aggregator : List (Nat × List Nat)
  gas_estimate : Nat
  gas_fees : GasFees
  expected_storage : Nat
  rejected_ops : List Nat
  rejected_entities : List Nat
deriving Repr, DecidableEq

/-- Rust `Bundle::iter_ops`: all accepted ops in bundle iteration order. -/
def Bundle.iter_ops (b : Bundle) : List Nat := opsFlat b.ops_per_aggregator

/-- Rust `Bundle::is_empty`: no accepted ops. -/
def Bundle.is_empty (b : Bundle) : Bool := b.iter_ops.isEmpty

/-- The `TrackerUpdate` sum from `builder::transaction_tracker`. -/
inductive TrackerUpdate where
  | Mined (tx_hash nonce : Nat) (gas_fees : GasFees) (block_number attempt_number : Nat)
  | StillPendingAfterWait
  | LatestTxDropped (nonce : Nat)
  | NonceUsedForOtherTx (nonce : Nat)
deriving Repr, DecidableEq

/-- The `SendResult` sum from `builder::transaction_tracker`. -/
inductive SendResult where
  | TrackerUpdate (u : TrackerUpdate)
  | TxHash (h : Nat)
deriving Repr, DecidableEq

/-- The `SendBundleResult` sum from `bundle_sender.rs` (error payload as message). -/
inductive SendBundleResult where
  | Success (block_number attempt_number tx_hash : Nat)
  | NoOperationsInitially
  | NoOperationsAfterFeeIncreases (initial_op_count : Nat) (attempt_number : Nat)
  | StalledAtMaxFeeIncreases
  | Error (msg : String)
deriving Repr, DecidableEq

/-- The `BundleTxDetails` record from `builder::emit`. -/
structure BundleTxDetails where
  tx_hash : Nat
  tx : TypedTransaction
  op_hashes : List Nat
deriving Repr, DecidableEq

/-- The `BuilderEvent` constructors used by `bundle_sender.rs`; nonces are stored
as their low 64 bits, exactly as emitted. -/
inductive BuilderEvent where
  | formed_bundle (id : Nat) (details : Option BundleTxDetails) (nonce_low : Nat)
      (fee_increase_count : Nat) (required_fees : Option GasFees)
  | transaction_mined (id tx_hash nonce_low block_number : Nat)
  | latest_transaction_dropped (id nonce_low : Nat)
  | nonce_used_for_other_transaction (id nonce_low : Nat)
deriving Repr, DecidableEq

/-- The `BuilderMetrics` counters of `bundle_sender.rs`. -/
inductive Metric where
  | bundle_txns_sent
  | bundle_txns_success
  | bundle_txns_dropped
  | bundle_txns_abandoned
  | bundle_txns_failed
  | bundle_txns_nonce_used
  | bundle_fee_increases
deriving Repr, DecidableEq

/-- One observable step of the sender: an emitted event, an incremented
counter, a gauge update, a call to an external collaborator, or an error
log line. -/
inductive TraceItem where
  | event (e : BuilderEvent)
  | metric (m : Metric)
  | gaugeFees (f : GasFees)
  | nonceQuery
  | proposerRequest (required_fees : Option GasFees)
  | poolRemoveOps (entry_point : Nat) (hashes : List Nat)
  | poolRemoveEntities (entry_point : Nat) (entities : List Nat)
  | trackerSend (tx : TypedTransaction) (expected_storage : Nat)
  | logError (msg : String)
deriving Repr, DecidableEq

/-- The `BundleTx` record from `bundle_sender.rs`. -/
structure BundleTx where
  tx : TypedTransaction
  expected_storage : Nat
  op_hashes : List Nat
deriving Repr, DecidableEq

/-- The per-builder constants of `BundleSender` plus its `Settings`.  The user
operation hash function `op_hash(op, entry_point, chain_id)` is opaque and
carried as a field. -/
structure BuilderConfig where
  id : Nat
  chain_id : Nat
  beneficiary : Nat
  entry_point_address : Nat
  op_hash : Nat → Nat → Nat → Nat
  replacement_fee_percent_increase : Nat
  max_fee_increases : Nat

/-- Rust `BundleSender::op_hash`: hash an op with this builder's entry point and
chain id. -/
def BuilderConfig.opHashOf (cfg : BuilderConfig) (op : Nat) : Nat :=
  cfg.op_hash op cfg.entry_point_address cfg.chain_id

/-- The proposer's answer for one attempt. -/
inductive ProposerResult where
  | ok (b : Bundle)
  | err (msg : String)
deriving Repr

/-- Oracle for the external collaborators during one escalation attempt:
the proposer's bundle, whether each pool removal fails, the tracker's answer
to `send_transaction` and to `wait_for_update`. -/
structure AttemptEnv where
  proposer : ProposerResult
  remove_ops_err : Bool
  remove_entities_err : Bool
  send : Except String SendResult
  wait : Except String TrackerUpdate

/-- Oracle for one full call of `send_bundle_with_increasing_gas_fees`:
the tracker's `get_nonce_and_required_fees` answer and the collaborators'
behaviour at each attempt index. -/
structure Env where
  nonce_fees : Except String (Nat × Option GasFees)
  attempts : Nat → AttemptEnv

/-- Rust `BundleSender::get_bundle_tx`: ask the proposer for a bundle at the given
fee floor, remove its rejected ops/entities from the pool (failures logged,
not fatal), return `none` if the bundle is empty, otherwise build the
envelope via the entry point with the gas estimate inflated by
`GAS_ESTIMATE_OVERHEAD_PERCENT` and the nonce set. -/
def get_bundle_tx (cfg : BuilderConfig) (a : AttemptEnv) (nonce : Nat)
    (required_fees : Option GasFees) : List TraceItem × Except String (Option BundleTx) :=
  match a.proposer with
  | .err m =>
    ([.proposerRequest required_fees],
      .error ("proposer should create bundle for builder: " ++ m))
  | .ok bundle =>
    let t0 : List TraceItem :=
      [.proposerRequest required_fees,
       .poolRemoveOps cfg.entry_point_address (bundle.rejected_ops.map cfg.opHashOf),
       .poolRemoveEntities cfg.entry_point_address bundle.rejected_entities]
    let t1 := t0
      ++ (if a.remove_ops_err then
            [TraceItem.logError "Failed to remove rejected ops from pool"] else [])
      ++ (if a.remove_entities_err then
            [TraceItem.logError "Failed to remove rejected entities from pool"] else [])
    if bundle.is_empty then (t1, .ok none)
    else
      let gas := mathIncreaseByPercent bundle.gas_estimate GAS_ESTIMATE_OVERHEAD_PERCENT
      let op_hashes := bundle.iter_ops.map cfg.opHashOf
      let tx : TypedTransaction :=
        { ops_per_aggregator := bundle.ops_per_aggregator
          beneficiary := cfg.beneficiary
          gas := gas
          fees := bundle.gas_fees
          nonce := 0 }
      (t1, .ok (some
        { tx := tx.set_nonce nonce
          expected_storage := bundle.expected_storage
          op_hashes := op_hashes }))

/-- Outcome of classifying one `TrackerUpdate` inside the escalation loop:
return a structured result, abort with the `bail!` error, or fall through to
the fee bump. -/
inductive ClassifyOutcome where
  | done (r : SendBundleResult)
  | fatal (msg : String)
  | again
deriving Repr, DecidableEq

/-- The `match update { ... }` classification of
`send_bundle_with_increasing_gas_fees_inner` (lines 319-359): the events it
emits, the counters it increments, and how the loop proceeds. -/
def classifyUpdate (id : Nat) (u : TrackerUpdate) : List TraceItem × ClassifyOutcome :=
  match u with
  | .Mined tx_hash nonce _ block_number attempt_number =>
    ([.event (.transaction_mined id tx_hash (low64 nonce) block_number),
      .metric .bundle_txns_success],
     .done (.Success block_number attempt_number tx_hash))
  | .StillPendingAfterWait => ([], .again)
  | .LatestTxDropped nonce =>
    ([.event (.latest_transaction_dropped id (low64 nonce)),
      .metric .bundle_txns_dropped],
     .again)
  | .NonceUsedForOtherTx nonce =>
    ([.event (.nonce_used_for_other_transaction id (low64 nonce)),
      .metric .bundle_txns_nonce_used],
     .fatal "nonce used by external transaction")

/-- How one iteration of the escalation loop ends: a returned result, a
propagated error, or a fee bump carrying the updated initial op count and the
`current_fees` read from the submitted envelope. -/
inductive StepEnd where
  | ret (r : SendBundleResult)
  | err (msg : String)
  | bump (initial_op_count : Nat) (current_fees : GasFees)
deriving Repr, DecidableEq

/-- Continuation of an escalation attempt once the tracker update is known:
append the classification's events and counters, then return, abort, or fall
through to the fee bump (the latter also counts a fee increase). -/
def afterUpdate (cfg : BuilderConfig) (ioc : Nat) (current_fees : GasFees)
    (t : List TraceItem) (u : TrackerUpdate) : List TraceItem × StepEnd :=
  match classifyUpdate cfg.id u with
  | (tc, .done r) => (t ++ tc, .ret r)
  | (tc, .fatal m) => (t ++ tc, .err m)
  | (tc, .again) =>
    (t ++ tc ++ [TraceItem.metric .bundle_fee_increases], .bump ioc current_fees)

/-- One iteration of the `for fee_increase_count in 0..=max_fee_increases`
loop of `send_bundle_with_increasing_gas_fees_inner`: build a candidate via
`get_bundle_tx`; on an empty bundle emit the empty `formed_bundle` event and
return; otherwise record the initial op count, submit through the tracker
(emitting the `formed_bundle` event with details only when a transaction hash
comes back), classify the tracker update, and either return, abort, or fall
through to the fee bump. -/
def attemptStep (cfg : BuilderConfig) (a : AttemptEnv) (nonce : Nat)
    (required_fees : Option GasFees) (initial_op_count : Option Nat)
    (fee_increase_count : Nat) : List TraceItem × StepEnd :=
  match get_bundle_tx cfg a nonce required_fees with
  | (t1, .error e) => (t1, .err e)
  | (t1, .ok none) =>
    let t := t1 ++ [TraceItem.event
      (.formed_bundle cfg.id none (low64 nonce) fee_increase_count required_fees)]
    match initial_op_count with
    | some n =>
      (t ++ [TraceItem.metric .bundle_txns_abandoned],
       .ret (.NoOperationsAfterFeeIncreases n fee_increase_count))
    | none => (t, .ret .NoOperationsInitially)
  | (t1, .ok (some btx)) =>
    let ioc := initial_op_count.getD btx.op_hashes.length
    let current_fees := gasFeesFromTx btx.tx
    let t2 := t1 ++ [TraceItem.metric .bundle_txns_sent,
                     TraceItem.gaugeFees current_fees,
                     TraceItem.trackerSend btx.tx btx.expected_storage]
    match a.send with
    | .error e => (t2, .err e)
    | .ok (.TrackerUpdate u) => afterUpdate cfg ioc current_fees t2 u
    | .ok (.TxHash tx_hash) =>
      let t3 := t2 ++ [TraceItem.event (.formed_bundle cfg.id
        (some { tx_hash := tx_hash, tx := btx.tx, op_hashes := btx.op_hashes })
        (low64 nonce) fee_increase_count required_fees)]
      match a.wait with
      | .error e => (t3, .err e)
      | .ok u => afterUpdate cfg ioc current_fees t3 u

/-- The escalation loop itself, by remaining-iteration count (`fuel`): run
`attemptStep`, and on a fee bump continue with the floor set to the submitted
envelope's fees raised by `replacement_fee_percent_increase`.  When the
iterations are exhausted, count an abandonment and return
`StalledAtMaxFeeIncreases`. -/
def innerLoop (cfg : BuilderConfig) (attempts : Nat → AttemptEnv) (nonce : Nat)
    (required_fees : Option GasFees) (initial_op_count : Option Nat)
    (fee_increase_count : Nat) : Nat → List TraceItem × Except String SendBundleResult
  | 0 => ([TraceItem.metric .bundle_txns_abandoned], .ok .StalledAtMaxFeeIncreases)
  | fuel + 1 =>
    match attemptStep cfg (attempts fee_increase_count) nonce required_fees
        initial_op_count fee_increase_count with
    | (t, .ret r) => (t, .ok r)
    | (t, .err m) => (t, .error m)
    | (t, .bump ioc cf) =>
      let rest := innerLoop cfg attempts nonce
        (some (cf.increase_by_percent cfg.replacement_fee_percent_increase))
        (some ioc) (fee_increase_count + 1) fuel
      (t ++ rest.1, rest.2)

/-- Rust `send_bundle_with_increasing_gas_fees_inner`: read the nonce and required
fee floor from the tracker, then run the escalation loop for at most
`max_fee_increases + 1` attempts. -/
def send_bundle_with_increasing_gas_fees_inner (cfg : BuilderConfig) (env : Env) :
    List TraceItem × Except String SendBundleResult :=
  match env.nonce_fees with
  | .error e => ([TraceItem.nonceQuery], .error e)
  | .ok (nonce, fees0) =>
    let r := innerLoop cfg env.attempts nonce fees0 none 0 (cfg.max_fee_increases + 1)
    (TraceItem.nonceQuery :: r.1, r.2)

/-- Rust `send_bundle_with_increasing_gas_fees`: wrap any propagated error into
`SendBundleResult::Error`. -/
def send_bundle_with_increasing_gas_fees (cfg : BuilderConfig) (env : Env) :
    List TraceItem × SendBundleResult :=
  match send_bundle_with_increasing_gas_fees_inner cfg env with
  | (t, .ok r) => (t, r)
  | (t, .error e) => (t, .Error e)

/-- Rust `check_for_and_log_transaction_update`: the passive per-block tracker
poll.  Errors and absent updates produce nothing observable beyond a log; a
`Mined` update only increments the success counter; dropped / nonce-used
updates emit their event and counter. -/
def check_for_and_log_transaction_update (id : Nat)
    (poll : Except String (Option TrackerUpdate)) : List TraceItem :=
  match poll with
  | .error _ => [TraceItem.logError "Failed to check for transaction updates"]
  | .ok none => []
  | .ok (some u) =>
    match u with
    | .Mined _ _ _ _ _ => [TraceItem.metric .bundle_txns_success]
    | .StillPendingAfterWait => []
    | .LatestTxDropped nonce =>
      [.event (.latest_transaction_dropped id (low64 nonce)),
       .metric .bundle_txns_dropped]
    | .NonceUsedForOtherTx nonce =>
      [.event (.nonce_used_for_other_transaction id (low64 nonce)),
       .metric .bundle_txns_nonce_used]

/-- One iteration of `send_bundles_in_loop` after the block wait: the passive
tracker poll, then one full escalation sequence, then the failure counter when
the result is an error. -/
def loopIteration (cfg : BuilderConfig) (poll : Except String (Option TrackerUpdate))
    (env : Env) : List TraceItem × SendBundleResult :=
  let t1 := check_for_and_log_transaction_update cfg.id poll
  let r := send_bundle_with_increasing_gas_fees cfg env
  let t3 : List TraceItem :=
    match r.2 with
    | .Error _ => [TraceItem.metric .bundle_txns_failed]
    | _ => []
  (t1 ++ r.1 ++ t3, r.2)

/-- The tracker update that settles an attempt, if any: the synchronous
`SendResult::TrackerUpdate`, or else the answer of `wait_for_update`. -/
def attemptUpdate (a : AttemptEnv) : Option TrackerUpdate :=
  match a.send with
  | .ok (.TrackerUpdate u) => some u
  | .ok (.TxHash _) =>
    match a.wait with
    | .ok u => some u
    | .error _ => none
  | .error _ => none

/-- The `(required_fees, initial_op_count)` state with which the escalation
loop enters attempt `k`, when every earlier attempt fell through to a fee
bump; `none` when some earlier attempt terminated the loop. -/
def stateAt (cfg : BuilderConfig) (attempts : Nat → AttemptEnv) (nonce : Nat)
    (fees0 : Option GasFees) : Nat → Option (Option GasFees × Option Nat)
  | 0 => some (fees0, none)
  | k + 1 =>
    match stateAt cfg attempts nonce fees0 k with
    | none => none
    | some (f, i) =>
      match (attemptStep cfg (attempts k) nonce f i k).2 with
      | .bump ioc cf =>
        some (some (cf.increase_by_percent cfg.replacement_fee_percent_increase), some ioc)
      | _ => none

/-! ### Helper predicates and equation lemmas -/

/-- Trace items that `get_bundle_tx` itself can produce: collaborator calls
and error-log lines only. -/
def plumbing (t : TraceItem) : Bool :=
  match t with
  | .proposerRequest _ => true
  | .poolRemoveOps _ _ => true
  | .poolRemoveEntities _ _ => true
  | .logError _ => true
  | _ => false

/-- Recogniser for `trackerSend` items, for counting submissions. -/
def isTrackerSend (t : TraceItem) : Bool :=
  match t with
  | .trackerSend _ _ => true
  | _ => false

/-- Recogniser for `transaction_mined` events. -/
def isMinedEvent (t : TraceItem) : Bool :=
  match t with
  | .event (.transaction_mined _ _ _ _) => true
  | _ => false

lemma get_bundle_tx_fst_err (cfg : BuilderConfig) (a : AttemptEnv) (nonce : Nat)
    (f : Option GasFees) (m : String) (hp : a.proposer = .err m) :
    (get_bundle_tx cfg a nonce f).1 = [TraceItem.proposerRequest f] := by
  unfold get_bundle_tx
  rw [hp]

lemma get_bundle_tx_fst_ok (cfg : BuilderConfig) (a : AttemptEnv) (nonce : Nat)
    (f : Option GasFees) (b : Bundle) (hp : a.proposer = .ok b) :
    (get_bundle_tx cfg a nonce f).1 =
      [TraceItem.proposerRequest f,
       TraceItem.poolRemoveOps cfg.entry_point_address (b.rejected_ops.map cfg.opHashOf),
       TraceItem.poolRemoveEntities cfg.entry_point_address b.rejected_entities]
      ++ (if a.remove_ops_err then
            [TraceItem.logError "Failed to remove rejected ops from pool"] else [])
      ++ (if a.remove_entities_err then
            [TraceItem.logError "Failed to remove rejected entities from pool"] else []) := by
  unfold get_bundle_tx
  rw [hp]
  by_cases h : b.is_empty <;> simp [h]

lemma get_bundle_tx_plumbing (cfg : BuilderConfig) (a : AttemptEnv) (nonce : Nat)
    (f : Option GasFees) : ∀ t ∈ (get_bundle_tx cfg a nonce f).1, plumbing t = true := by
  intro t ht
  cases hp : a.proposer with
  | err m =>
    rw [get_bundle_tx_fst_err cfg a nonce f m hp] at ht
    simp at ht
    subst ht
    rfl
  | ok b =>
    rw [get_bundle_tx_fst_ok cfg a nonce f b hp] at ht
    split_ifs at ht <;> simp at ht <;>
      first
      | ((rcases ht with rfl | rfl | rfl | rfl | rfl) <;> rfl)
      | ((rcases ht with rfl | rfl | rfl | rfl) <;> rfl)
      | ((rcases ht with rfl | rfl | rfl) <;> rfl)

lemma get_bundle_tx_head (cfg : BuilderConfig) (a : AttemptEnv) (nonce : Nat)
    (f : Option GasFees) :
    ∃ rest, (get_bundle_tx cfg a nonce f).1 = TraceItem.proposerRequest f :: rest := by
  cases hp : a.proposer with
  | err m => exact ⟨[], get_bundle_tx_fst_err cfg a nonce f m hp⟩
  | ok b =>
    rw [get_bundle_tx_fst_ok cfg a nonce f b hp]
    exact ⟨_, rfl⟩

lemma afterUpdate_mined (cfg : BuilderConfig) (ioc : Nat) (cf : GasFees)
    (t : List TraceItem) (h n : Nat) (gf : GasFees) (b an : Nat) :
    afterUpdate cfg ioc cf t (.Mined h n gf b an) =
      (t ++ [TraceItem.event (.transaction_mined cfg.id h (low64 n) b),
             TraceItem.metric .bundle_txns_success],
       .ret (.Success b an h)) := by
  simp [afterUpdate, classifyUpdate]

lemma afterUpdate_pending (cfg : BuilderConfig) (ioc : Nat) (cf : GasFees)
    (t : List TraceItem) :
    afterUpdate cfg ioc cf t .StillPendingAfterWait =
      (t ++ [TraceItem.metric .bundle_fee_increases], .bump ioc cf) := by
  simp [afterUpdate, classifyUpdate]

lemma afterUpdate_dropped (cfg : BuilderConfig) (ioc : Nat) (cf : GasFees)
    (t : List TraceItem) (n : Nat) :
    afterUpdate cfg ioc cf t (.LatestTxDropped n) =
      (t ++ [TraceItem.event (.latest_transaction_dropped cfg.id (low64 n)),
             TraceItem.metric .bundle_txns_dropped,
             TraceItem.metric .bundle_fee_increases],
       .bump ioc cf) := by
  simp [afterUpdate, classifyUpdate]

lemma afterUpdate_nonce_used (cfg : BuilderConfig) (ioc : Nat) (cf : GasFees)
    (t : List TraceItem) (n : Nat) :
    afterUpdate cfg ioc cf t (.NonceUsedForOtherTx n) =
      (t ++ [TraceItem.event (.nonce_used_for_other_transaction cfg.id (low64 n)),
             TraceItem.metric .bundle_txns_nonce_used],
       .err "nonce used by external transaction") := by
  simp [afterUpdate, classifyUpdate]

lemma attemptStep_gbt_err (cfg : BuilderConfig) (a : AttemptEnv) (nonce : Nat)
    (f : Option GasFees) (ioc : Option Nat) (k : Nat) (t1 : List TraceItem) (e : String)
    (h : get_bundle_tx cfg a nonce f = (t1, .error e)) :
    attemptStep cfg a nonce f ioc k = (t1, .err e) := by
  unfold attemptStep
  rw [h]

lemma attemptStep_empty_none (cfg : BuilderConfig) (a : AttemptEnv) (nonce : Nat)
    (f : Option GasFees) (k : Nat) (t1 : List TraceItem)
    (h : get_bundle_tx cfg a nonce f = (t1, .ok none)) :
    attemptStep cfg a nonce f none k =
      (t1 ++ [TraceItem.event (.formed_bundle cfg.id none (low64 nonce) k f)],
       .ret .NoOperationsInitially) := by
  unfold attemptStep
  rw [h]

lemma attemptStep_empty_some (cfg : BuilderConfig) (a : AttemptEnv) (nonce : Nat)
    (f : Option GasFees) (k n : Nat) (t1 : List TraceItem)
    (h : get_bundle_tx cfg a nonce f = (t1, .ok none)) :
    attemptStep cfg a nonce f (some n) k =
      (t1 ++ [TraceItem.event (.formed_bundle cfg.id none (low64 nonce) k f),
              TraceItem.metric .bundle_txns_abandoned],
       .ret (.NoOperationsAfterFeeIncreases n k)) := by
  unfold attemptStep
  rw [h]
  simp

lemma attemptStep_some_send_err (cfg : BuilderConfig) (a : AttemptEnv) (nonce : Nat)
    (f : Option GasFees) (ioc : Option Nat) (k : Nat) (t1 : List TraceItem)
    (btx : BundleTx) (e : String)
    (h : get_bundle_tx cfg a nonce f = (t1, .ok (some btx)))
    (hs : a.send = .error e) :
    attemptStep cfg a nonce f ioc k =
      (t1 ++ [TraceItem.metric .bundle_txns_sent,
              TraceItem.gaugeFees btx.tx.fees,
              TraceItem.trackerSend btx.tx btx.expected_storage],
       .err e) := by
  unfold attemptStep
  rw [h, hs]
  rfl

lemma attemptStep_some_sync (cfg : BuilderConfig) (a : AttemptEnv) (nonce : Nat)
    (f : Option GasFees) (ioc : Option Nat) (k : Nat) (t1 : List TraceItem)
    (btx : BundleTx) (u : TrackerUpdate)
    (h : get_bundle_tx cfg a nonce f = (t1, .ok (some btx)))
    (hs : a.send = .ok (.TrackerUpdate u)) :
    attemptStep cfg a nonce f ioc k =
      afterUpdate cfg (ioc.getD btx.op_hashes.length) btx.tx.fees
        (t1 ++ [TraceItem.metric .bundle_txns_sent,
                TraceItem.gaugeFees btx.tx.fees,
                TraceItem.trackerSend btx.tx btx.expected_storage]) u := by
  unfold attemptStep
  rw [h, hs]
  rfl

lemma attemptStep_some_wait_err (cfg : BuilderConfig) (a : AttemptEnv) (nonce : Nat)
    (f : Option GasFees) (ioc : Option Nat) (k : Nat) (t1 : List TraceItem)
    (btx : BundleTx) (tx_hash : Nat) (e : String)
    (h : get_bundle_tx cfg a nonce f = (t1, .ok (some btx)))
    (hs : a.send = .ok (.TxHash tx_hash)) (hw : a.wait = .error e) :
    attemptStep cfg a nonce f ioc k =
      (t1 ++ [TraceItem.metric .bundle_txns_sent,
              TraceItem.gaugeFees btx.tx.fees,
              TraceItem.trackerSend btx.tx btx.expected_storage,
              TraceItem.event (.formed_bundle cfg.id
                (some { tx_hash := tx_hash, tx := btx.tx, op_hashes := btx.op_hashes })
                (low64 nonce) k f)],
       .err e) := by
  unfold attemptStep
  rw [h, hs, hw]
  simp [gasFeesFromTx]

lemma attemptStep_some_async (cfg : BuilderConfig) (a : AttemptEnv) (nonce : Nat)
    (f : Option GasFees) (ioc : Option Nat) (k : Nat) (t1 : List TraceItem)
    (btx : BundleTx) (tx_hash : Nat) (u : TrackerUpdate)
    (h : get_bundle_tx cfg a nonce f = (t1, .ok (some btx)))
    (hs : a.send = .ok (.TxHash tx_hash)) (hw : a.wait = .ok u) :
    attemptStep cfg a nonce f ioc k =
      afterUpdate cfg (ioc.getD btx.op_hashes.length) btx.tx.fees
        (t1 ++ [TraceItem.metric .bundle_txns_sent,
                TraceItem.gaugeFees btx.tx.fees,
                TraceItem.trackerSend btx.tx btx.expected_storage,
                TraceItem.event (.formed_bundle cfg.id
                  (some { tx_hash := tx_hash, tx := btx.tx, op_hashes := btx.op_hashes })
                  (low64 nonce) k f)]) u := by
  unfold attemptStep
  rw [h, hs, hw]
  simp [gasFeesFromTx]

lemma innerLoop_zero (cfg : BuilderConfig) (attempts : Nat → AttemptEnv) (nonce : Nat)
    (f : Option GasFees) (ioc : Option Nat) (k : Nat) :
    innerLoop cfg attempts nonce f ioc k 0 =
      ([TraceItem.metric .bundle_txns_abandoned], .ok .StalledAtMaxFeeIncreases) := rfl

lemma innerLoop_ret (cfg : BuilderConfig) (attempts : Nat → AttemptEnv) (nonce : Nat)
    (f : Option GasFees) (ioc : Option Nat) (k fuel : Nat) (t : List TraceItem)
    (r : SendBundleResult)
    (h : attemptStep cfg (attempts k) nonce f ioc k = (t, .ret r)) :
    innerLoop cfg attempts nonce f ioc k (fuel + 1) = (t, .ok r) := by
  unfold innerLoop
  rw [h]

lemma innerLoop_err (cfg : BuilderConfig) (attempts : Nat → AttemptEnv) (nonce : Nat)
    (f : Option GasFees) (ioc : Option Nat) (k fuel : Nat) (t : List TraceItem)
    (m : String)
    (h : attemptStep cfg (attempts k) nonce f ioc k = (t, .err m)) :
    innerLoop cfg attempts nonce f ioc k (fuel + 1) = (t, .error m) := by
  unfold innerLoop
  rw [h]

lemma innerLoop_bump (cfg : BuilderConfig) (attempts : Nat → AttemptEnv) (nonce : Nat)
    (f : Option GasFees) (ioc : Option Nat) (k fuel : Nat) (t : List TraceItem)
    (n : Nat) (cf : GasFees)
    (h : attemptStep cfg (attempts k) nonce f ioc k = (t, .bump n cf)) :
    innerLoop cfg attempts nonce f ioc k (fuel + 1) =
      (t ++ (innerLoop cfg attempts nonce
          (some (cf.increase_by_percent cfg.replacement_fee_percent_increase))
          (some n) (k + 1) fuel).1,
       (innerLoop cfg attempts nonce
          (some (cf.increase_by_percent cfg.replacement_fee_percent_increase))
          (some n) (k + 1) fuel).2) := by
  conv_lhs => unfold innerLoop
  rw [h]

/-- The trace items that update classification can produce: the three fate
events and the success / dropped / nonce-used / fee-increase counters. -/
def classifyItem (t : TraceItem) : Bool :=
  match t with
  | .event (.transaction_mined _ _ _ _) => true
  | .event (.latest_transaction_dropped _ _) => true
  | .event (.nonce_used_for_other_transaction _ _) => true
  | .metric .bundle_txns_success => true
  | .metric .bundle_txns_dropped => true
  | .metric .bundle_txns_nonce_used => true
  | .metric .bundle_fee_increases => true
  | _ => false

lemma classifyUpdate_items (id : Nat) (u : TrackerUpdate) :
    ∀ x ∈ (classifyUpdate id u).1, classifyItem x = true := by
  cases u <;> intro x hx <;> simp [classifyUpdate] at hx <;>
    first
    | (rcases hx with rfl | rfl <;> rfl)
    | (subst hx; rfl)
    | exact hx.elim

lemma afterUpdate_decomp (cfg : BuilderConfig) (ioc : Nat) (cf : GasFees)
    (t : List TraceItem) (u : TrackerUpdate) :
    ∃ extra, (afterUpdate cfg ioc cf t u).1 = t ++ extra ∧
      ∀ x ∈ extra, classifyItem x = true := by
  cases u with
  | Mined h n gf b an =>
    rw [afterUpdate_mined]
    exact ⟨_, rfl, by intro x hx; simp at hx; rcases hx with rfl | rfl <;> rfl⟩
  | StillPendingAfterWait =>
    rw [afterUpdate_pending]
    exact ⟨_, rfl, by intro x hx; simp at hx; subst hx; rfl⟩
  | LatestTxDropped n =>
    rw [afterUpdate_dropped]
    exact ⟨_, rfl, by intro x hx; simp at hx; rcases hx with rfl | rfl | rfl <;> rfl⟩
  | NonceUsedForOtherTx n =>
    rw [afterUpdate_nonce_used]
    exact ⟨_, rfl, by intro x hx; simp at hx; rcases hx with rfl | rfl <;> rfl⟩

/-- Exhaustive description of one escalation attempt: the proposer errored;
the bundle was empty (with the two terminal results); or a transaction was
submitted, in which case the trace extends the `get_bundle_tx` trace with the
submission bookkeeping, optionally the `formed_bundle` event with details
(exactly when the tracker returned a hash), and then either a propagated
error or the classification of the settling update. -/
lemma attemptStep_shape (cfg : BuilderConfig) (a : AttemptEnv) (nonce : Nat)
    (f : Option GasFees) (ioc : Option Nat) (k : Nat) :
    (∃ t1 m, get_bundle_tx cfg a nonce f = (t1, .error m) ∧
        attemptStep cfg a nonce f ioc k = (t1, .err m))
  ∨ (∃ t1, get_bundle_tx cfg a nonce f = (t1, .ok none) ∧
      ((ioc = none ∧ attemptStep cfg a nonce f ioc k =
          (t1 ++ [TraceItem.event (.formed_bundle cfg.id none (low64 nonce) k f)],
           .ret .NoOperationsInitially))
       ∨ (∃ n, ioc = some n ∧ attemptStep cfg a nonce f ioc k =
          (t1 ++ [TraceItem.event (.formed_bundle cfg.id none (low64 nonce) k f),
                  TraceItem.metric .bundle_txns_abandoned],
           .ret (.NoOperationsAfterFeeIncreases n k)))))
  ∨ (∃ t1 btx base, get_bundle_tx cfg a nonce f = (t1, .ok (some btx)) ∧
      (base = [TraceItem.metric .bundle_txns_sent,
               TraceItem.gaugeFees btx.tx.fees,
               TraceItem.trackerSend btx.tx btx.expected_storage]
       ∨ ∃ hsh, a.send = .ok (.TxHash hsh) ∧
          base = [TraceItem.metric .bundle_txns_sent,
                  TraceItem.gaugeFees btx.tx.fees,
                  TraceItem.trackerSend btx.tx btx.expected_storage,
                  TraceItem.event (.formed_bundle cfg.id
                    (some { tx_hash := hsh, tx := btx.tx, op_hashes := btx.op_hashes })
                    (low64 nonce) k f)]) ∧
      ((∃ m, attemptStep cfg a nonce f ioc k = (t1 ++ base, .err m))
       ∨ (∃ u, attemptUpdate a = some u ∧
          attemptStep cfg a nonce f ioc k =
            afterUpdate cfg (ioc.getD btx.op_hashes.length) btx.tx.fees (t1 ++ base) u))) := by
  rcases hg : get_bundle_tx cfg a nonce f with ⟨t1, r1⟩
  match r1 with
  | .error m =>
    exact Or.inl ⟨t1, m, rfl, attemptStep_gbt_err cfg a nonce f ioc k t1 m hg⟩
  | .ok none =>
    refine Or.inr (Or.inl ⟨t1, rfl, ?_⟩)
    match ioc with
    | none => exact Or.inl ⟨rfl, attemptStep_empty_none cfg a nonce f k t1 hg⟩
    | some n => exact Or.inr ⟨n, rfl, attemptStep_empty_some cfg a nonce f k n t1 hg⟩
  | .ok (some btx) =>
    refine Or.inr (Or.inr ⟨t1, btx, ?_⟩)
    rcases hs : a.send with e | sr
    · exact ⟨_, rfl, Or.inl rfl,
        Or.inl ⟨e, attemptStep_some_send_err cfg a nonce f ioc k t1 btx e hg hs⟩⟩
    · match sr with
      | .TrackerUpdate u =>
        refine ⟨_, rfl, Or.inl rfl, Or.inr ⟨u, ?_, ?_⟩⟩
        · simp [attemptUpdate, hs]
        · exact attemptStep_some_sync cfg a nonce f ioc k t1 btx u hg hs
      | .TxHash hsh =>
        rcases hw : a.wait with e | u
        · refine ⟨_, rfl, Or.inr ⟨hsh, rfl, rfl⟩, Or.inl ⟨e, ?_⟩⟩
          have := attemptStep_some_wait_err cfg a nonce f ioc k t1 btx hsh e hg hs hw
          rw [this]
        · refine ⟨_, rfl, Or.inr ⟨hsh, rfl, rfl⟩, Or.inr ⟨u, ?_, ?_⟩⟩
          · simp [attemptUpdate, hs, hw]
          · exact attemptStep_some_async cfg a nonce f ioc k t1 btx hsh u hg hs hw

/-- What a successful non-empty `get_bundle_tx` returns, in terms of the
proposer's bundle. -/
lemma get_bundle_tx_some_spec (cfg : BuilderConfig) (a : AttemptEnv) (nonce : Nat)
    (f : Option GasFees) (t : List TraceItem) (btx : BundleTx)
    (h : get_bundle_tx cfg a nonce f = (t, .ok (some btx))) :
    ∃ b, a.proposer = .ok b ∧ b.is_empty = false ∧
      btx.tx = { ops_per_aggregator := b.ops_per_aggregator
                 beneficiary := cfg.beneficiary
                 gas := mathIncreaseByPercent b.gas_estimate GAS_ESTIMATE_OVERHEAD_PERCENT
                 fees := b.gas_fees
                 nonce := nonce } ∧
      btx.expected_storage = b.expected_storage ∧
      btx.op_hashes = b.iter_ops.map cfg.opHashOf := by
  unfold get_bundle_tx at h
  cases hp : a.proposer with
  | err m =>
    rw [hp] at h
    simp at h
  | ok b =>
    rw [hp] at h
    by_cases he : b.is_empty
    · simp [he] at h
    · simp only [he, if_false, Bool.false_eq_true] at h
      refine ⟨b, rfl, by simpa using he, ?_, ?_, ?_⟩ <;>
        · have h2 := congrArg Prod.snd h
          simp [TypedTransaction.set_nonce] at h2
          rw [← h2]

/-- The value returned by `get_bundle_tx` when the proposer returned a
bundle, independent of whether the pool removals failed. -/
lemma get_bundle_tx_snd_ok (cfg : BuilderConfig) (a : AttemptEnv) (nonce : Nat)
    (f : Option GasFees) (b : Bundle) (hp : a.proposer = .ok b) :
    (get_bundle_tx cfg a nonce f).2 =
      if b.is_empty then .ok none
      else .ok (some
        { tx := { ops_per_aggregator := b.ops_per_aggregator
                  beneficiary := cfg.beneficiary
                  gas := mathIncreaseByPercent b.gas_estimate GAS_ESTIMATE_OVERHEAD_PERCENT
                  fees := b.gas_fees
                  nonce := nonce }
          expected_storage := b.expected_storage
          op_hashes := b.iter_ops.map cfg.opHashOf }) := by
  unfold get_bundle_tx
  rw [hp]
  by_cases he : b.is_empty <;> simp [he, TypedTransaction.set_nonce]

/-! ### Concrete fixtures for witnesses and counterexamples -/

/-- A concrete builder: id 7, chain 1, beneficiary 2, entry point 3, a simple
injective op-hash, 20 percent replacement bump, 3 fee increases. -/
def cfgX : BuilderConfig :=
  { id := 7, chain_id := 1, beneficiary := 2, entry_point_address := 3
    op_hash := fun o e c => o * 1000000 + e * 1000 + c
    replacement_fee_percent_increase := 20, max_fee_increases := 3 }

/-- A concrete non-empty bundle with one rejected op and one rejected entity. -/
def bundleX : Bundle :=
  { ops_per_aggregator := [(0, [11, 12])], gas_estimate := 100000
    gas_fees := { max_fee_per_gas := 10, max_priority_fee_per_gas := 1 }
    expected_storage := 0, rejected_ops := [21], rejected_entities := [31] }

/-- An attempt whose submission returns a hash and is then mined. -/
def attemptMined : AttemptEnv :=
  { proposer := .ok bundleX, remove_ops_err := false, remove_entities_err := false
    send := .ok (.TxHash 99)
    wait := .ok (.Mined 99 5 { max_fee_per_gas := 10, max_priority_fee_per_gas := 1 } 1000 0) }

/-- An attempt whose submission stays pending after the wait. -/
def attemptPending : AttemptEnv := { attemptMined with wait := .ok .StillPendingAfterWait }

/-- An attempt whose submission is settled synchronously as mined. -/
def attemptSync : AttemptEnv :=
  { attemptMined with send := .ok (.TrackerUpdate
      (.Mined 99 5 { max_fee_per_gas := 10, max_priority_fee_per_gas := 1 } 1000 0)) }

/-- An attempt whose submission hits an external nonce collision. -/
def attemptNonceUsed : AttemptEnv :=
  { attemptMined with wait := .ok (.NonceUsedForOtherTx 5) }

/-- An empty bundle that still carries rejections. -/
def emptyBundle : Bundle :=
  { ops_per_aggregator := [], gas_estimate := 0
    gas_fees := { max_fee_per_gas := 0, max_priority_fee_per_gas := 0 }
    expected_storage := 0, rejected_ops := [21, 22], rejected_entities := [31] }

/-- An attempt in which the proposer returns the empty bundle. -/
def attemptEmpty : AttemptEnv := { attemptMined with proposer := .ok emptyBundle }

/-- Environment: every attempt mines asynchronously. -/
def envX : Env := { nonce_fees := .ok (5, none), attempts := fun _ => attemptMined }

/-- Environment: attempt 0 stays pending, attempt 1 mines. -/
def envS2 : Env :=
  { nonce_fees := .ok (5, none)
    attempts := fun k => if k = 0 then attemptPending else attemptMined }

/-- Environment: attempt 0 stays pending, attempt 1 gets an empty bundle. -/
def envS3 : Env :=
  { nonce_fees := .ok (5, none)
    attempts := fun k => if k = 0 then attemptPending else attemptEmpty }

/-- Environment: the submission is settled synchronously as mined. -/
def envSync : Env := { nonce_fees := .ok (5, none), attempts := fun _ => attemptSync }

/-- Environment: attempt 0 ends in an external nonce collision. -/
def envNonceUsed : Env :=
  { nonce_fees := .ok (5, none), attempts := fun _ => attemptNonceUsed }

/-- The trace of `get_bundle_tx cfgX attemptMined 5 none`. -/
def traceGbtX : List TraceItem :=
  [.proposerRequest none, .poolRemoveOps 3 [21003001], .poolRemoveEntities 3 [31]]

/-- The bundle transaction built from `bundleX` at nonce 5. -/
def btxX : BundleTx :=
  { tx := { ops_per_aggregator := [(0, [11, 12])], beneficiary := 2, gas := 110000
            fees := { max_fee_per_gas := 10, max_priority_fee_per_gas := 1 }, nonce := 5 }
    expected_storage := 0, op_hashes := [11003001, 12003001] }

/-! ### Claim theorems -/

/-- C6: whenever the proposer returns a bundle, `get_bundle_tx` calls the
pool with exactly the hashes of the bundle's `rejected_ops` and exactly its
`rejected_entities`, directly after the proposer request and before anything
else in its trace (in particular before the emptiness test), even when the
bundle has zero accepted ops; a failing removal is only logged and never
makes `get_bundle_tx` return an error. -/
theorem claim6_pool_removals_exact (cfg : BuilderConfig) (a : AttemptEnv)
    (nonce : Nat) (f : Option GasFees) (b : Bundle) (hp : a.proposer = .ok b) :
    (get_bundle_tx cfg a nonce f).1.take 3 =
      [TraceItem.proposerRequest f,
       TraceItem.poolRemoveOps cfg.entry_point_address (b.rejected_ops.map cfg.opHashOf),
       TraceItem.poolRemoveEntities cfg.entry_point_address b.rejected_entities] ∧
    (∃ v, (get_bundle_tx cfg a nonce f).2 = .ok v) ∧
    (∀ e1 e2 : Bool,
      (get_bundle_tx cfg
          { a with remove_ops_err := e1, remove_entities_err := e2 } nonce f).2 =
        (get_bundle_tx cfg a nonce f).2) ∧
    (a.remove_ops_err = true →
      TraceItem.logError "Failed to remove rejected ops from pool" ∈
        (get_bundle_tx cfg a nonce f).1) ∧
    (a.remove_entities_err = true →
      TraceItem.logError "Failed to remove rejected entities from pool" ∈
        (get_bundle_tx cfg a nonce f).1) := by
  refine ⟨?_, ?_, ?_, ?_, ?_⟩
  · rw [get_bundle_tx_fst_ok cfg a nonce f b hp]
    rfl
  · rw [get_bundle_tx_snd_ok cfg a nonce f b hp]
    by_cases he : b.is_empty <;> simp [he]
  · intro e1 e2
    have hp2 : ({ a with remove_ops_err := e1, remove_entities_err := e2 }
        : AttemptEnv).proposer = .ok b := hp
    rw [get_bundle_tx_snd_ok cfg _ nonce f b hp2, get_bundle_tx_snd_ok cfg a nonce f b hp]
  · intro h1
    rw [get_bundle_tx_fst_ok cfg a nonce f b hp]
    simp [h1]
  · intro h2
    rw [get_bundle_tx_fst_ok cfg a nonce f b hp]
    simp [h2]

/-- Witness for C6 at a concrete input. -/
theorem claim6_witness :
    attemptMined.proposer = .ok bundleX ∧
    (get_bundle_tx cfgX attemptMined 5 none).1.take 3 =
      [TraceItem.proposerRequest none,
       TraceItem.poolRemoveOps cfgX.entry_point_address (bundleX.rejected_ops.map cfgX.opHashOf),
       TraceItem.poolRemoveEntities cfgX.entry_point_address bundleX.rejected_entities] :=
  ⟨rfl, (claim6_pool_removals_exact cfgX attemptMined 5 none bundleX rfl).1⟩

/-- C9: the gas of the envelope built for a non-empty bundle is the
proposer's `gas_estimate` inflated by `GAS_ESTIMATE_OVERHEAD_PERCENT = 10`
percent with rounding up, i.e. `⌈gas_estimate·110/100⌉`, characterised below
as the least value whose hundredfold reaches `gas_estimate·110`. -/
theorem claim9_gas_overhead (cfg : BuilderConfig) (a : AttemptEnv) (nonce : Nat)
    (f : Option GasFees) (b : Bundle) (t : List TraceItem) (btx : BundleTx)
    (hp : a.proposer = .ok b)
    (h : get_bundle_tx cfg a nonce f = (t, .ok (some btx))) :
    btx.tx.gas = (b.gas_estimate * 110 + 99) / 100 ∧
    b.gas_estimate * 110 ≤ 100 * btx.tx.gas ∧
    100 * btx.tx.gas < b.gas_estimate * 110 + 100 := by
  obtain ⟨b2, hp2, _, htx, _, _⟩ := get_bundle_tx_some_spec cfg a nonce f t btx h
  have hbb : b = b2 := by
    have h3 := hp.symm.trans hp2
    injection h3
  subst hbb
  have hg : btx.tx.gas = (b.gas_estimate * 110 + 99) / 100 := by
    rw [htx]
    simp [mathIncreaseByPercent, GAS_ESTIMATE_OVERHEAD_PERCENT]
  refine ⟨hg, ?_, ?_⟩ <;> omega

/-- Witness for C9 at a concrete input: `⌈100000·1.10⌉ = 110000`. -/
theorem claim9_witness :
    attemptMined.proposer = .ok bundleX ∧
    get_bundle_tx cfgX attemptMined 5 none = (traceGbtX, .ok (some btxX)) ∧
    btxX.tx.gas = (bundleX.gas_estimate * 110 + 99) / 100 :=
  ⟨rfl, rfl,
    (claim9_gas_overhead cfgX attemptMined 5 none bundleX traceGbtX btxX rfl rfl).1⟩

/-! ### Item-shape helpers -/

lemma plumbing_not_send (x : TraceItem) (h : plumbing x = true) : isTrackerSend x = false := by
  cases x <;> simp [plumbing, isTrackerSend] at h ⊢

lemma plumbing_not_event (x : TraceItem) (h : plumbing x = true) :
    ∀ e, x ≠ TraceItem.event e := by
  cases x <;> simp [plumbing] at h ⊢

lemma plumbing_not_metric (x : TraceItem) (h : plumbing x = true) :
    ∀ m, x ≠ TraceItem.metric m := by
  cases x <;> simp [plumbing] at h ⊢

lemma classifyItem_not_send (x : TraceItem) (h : classifyItem x = true) :
    isTrackerSend x = false := by
  cases x <;> simp [classifyItem, isTrackerSend] at h ⊢

lemma classifyItem_not_formed (x : TraceItem) (h : classifyItem x = true) :
    ∀ id d nl k f, x ≠ TraceItem.event (.formed_bundle id d nl k f) := by
  cases x with
  | event e => cases e <;> simp [classifyItem] at h ⊢
  | _ => simp

lemma classifyItem_not_abandoned (x : TraceItem) (h : classifyItem x = true) :
    x ≠ TraceItem.metric .bundle_txns_abandoned := by
  cases x with
  | metric m => cases m <;> simp [classifyItem] at h ⊢
  | _ => simp

/-- The property C5 asserts of every `formed_bundle` event with details: its
`op_hashes` are the hashes of exactly the ops its envelope handed to the
entry point, in bundle iteration order. -/
def formedOkay (cfg : BuilderConfig) (x : TraceItem) : Prop :=
  ∀ id d nl k f, x = TraceItem.event (.formed_bundle id (some d) nl k f) →
    d.op_hashes = (opsFlat d.tx.ops_per_aggregator).map cfg.opHashOf

lemma attemptStep_formedOkay (cfg : BuilderConfig) (a : AttemptEnv) (nonce : Nat)
    (f : Option GasFees) (ioc : Option Nat) (k : Nat) :
    ∀ x ∈ (attemptStep cfg a nonce f ioc k).1, formedOkay cfg x := by
  have hplumb : ∀ t1 r, get_bundle_tx cfg a nonce f = (t1, r) →
      ∀ x ∈ t1, formedOkay cfg x := by
    intro t1 r hg x hx
    intro id d nl k2 f2 hform
    have hpl := get_bundle_tx_plumbing cfg a nonce f x (by rw [hg]; exact hx)
    exact absurd hform (plumbing_not_event x hpl _)
  rcases attemptStep_shape cfg a nonce f ioc k with
    ⟨t1, m, hg, hstep⟩ | ⟨t1, hg, hcase⟩ | ⟨t1, btx, base, hg, hbase, hout⟩
  · rw [hstep]
    exact fun x hx => hplumb t1 _ hg x hx
  · rcases hcase with ⟨_, hstep⟩ | ⟨n, _, hstep⟩ <;> rw [hstep] <;> intro x hx <;>
      simp at hx <;>
      (rcases hx with hx | hx
       · exact hplumb t1 _ hg x hx
       · intro id d nl k2 f2 hform
         first
         | (subst hx; simp at hform)
         | (rcases hx with hx | hx <;> subst hx <;> simp at hform))
  · obtain ⟨b, hpb, hemp, htx, hst, hops⟩ := get_bundle_tx_some_spec cfg a nonce f t1 btx hg
    have hbtx : formedOkay cfg (TraceItem.event (.formed_bundle cfg.id
        (some { tx_hash := 0, tx := btx.tx, op_hashes := btx.op_hashes }) 0 0 none)) := by
      intro id d nl k2 f2 hform
      simp at hform
      obtain ⟨_, hd, _, _, _⟩ := hform
      subst hd
      simp [hops, htx, Bundle.iter_ops]
    have hbaseOkay : ∀ x ∈ base, formedOkay cfg x := by
      intro x hx
      rcases hbase with rfl | ⟨hsh, _, rfl⟩ <;> simp at hx
      · rcases hx with rfl | rfl | rfl <;> intro id d nl k2 f2 hform <;> simp at hform
      · rcases hx with rfl | rfl | rfl | rfl <;> intro id d nl k2 f2 hform <;>
          try simp at hform
        obtain ⟨_, hd, _, _, _⟩ := hform
        subst hd
        simp [hops, htx, Bundle.iter_ops]
    rcases hout with ⟨m, hstep⟩ | ⟨u, hu, hstep⟩
    · rw [hstep]
      intro x hx
      simp at hx
      rcases hx with hx | hx
      · exact hplumb t1 _ hg x hx
      · exact hbaseOkay x hx
    · rw [hstep]
      obtain ⟨extra, hdec, hcl⟩ := afterUpdate_decomp cfg (ioc.getD btx.op_hashes.length)
        btx.tx.fees (t1 ++ base) u
      rw [hdec]
      intro x hx
      simp at hx
      rcases hx with hx | hx | hx
      · exact hplumb t1 _ hg x hx
      · exact hbaseOkay x hx
      · intro id d nl k2 f2 hform
        exact absurd hform (classifyItem_not_formed x (hcl x hx) _ _ _ _ _)

lemma innerLoop_formedOkay (cfg : BuilderConfig) (attempts : Nat → AttemptEnv)
    (nonce : Nat) :
    ∀ fuel f ioc k, ∀ x ∈ (innerLoop cfg attempts nonce f ioc k fuel).1, formedOkay cfg x := by
  intro fuel
  induction fuel with
  | zero =>
    intro f ioc k x hx
    rw [innerLoop_zero] at hx
    simp at hx
    subst hx
    intro id d nl k2 f2 hform
    simp at hform
  | succ fuel ih =>
    intro f ioc k x hx
    rcases hstep : attemptStep cfg (attempts k) nonce f ioc k with ⟨t, e⟩
    have hstepOkay : ∀ y ∈ t, formedOkay cfg y := by
      have := attemptStep_formedOkay cfg (attempts k) nonce f ioc k
      rw [hstep] at this
      exact this
    cases e with
    | ret r =>
      rw [innerLoop_ret cfg attempts nonce f ioc k fuel t r hstep] at hx
      exact hstepOkay x hx
    | err m =>
      rw [innerLoop_err cfg attempts nonce f ioc k fuel t m hstep] at hx
      exact hstepOkay x hx
    | bump n cf =>
      rw [innerLoop_bump cfg attempts nonce f ioc k fuel t n cf hstep] at hx
      simp at hx
      rcases hx with hx | hx
      · exact hstepOkay x hx
      · exact ih _ _ _ x hx

/-- C5: every `formed_bundle` event emitted with transaction details during
`send_bundle_with_increasing_gas_fees` carries `op_hashes` equal, element for
element and in bundle iteration order, to `op_hash(op, entry_point, chain_id)`
applied to exactly the ops its envelope handed to
`EntryPoint::get_send_bundle_transaction`. -/
theorem claim5_op_hashes_match (cfg : BuilderConfig) (env : Env) (x : TraceItem)
    (hx : x ∈ (send_bundle_with_increasing_gas_fees cfg env).1)
    (id : Nat) (d : BundleTxDetails) (nl k : Nat) (f : Option GasFees)
    (hform : x = TraceItem.event (.formed_bundle id (some d) nl k f)) :
    d.op_hashes = (opsFlat d.tx.ops_per_aggregator).map cfg.opHashOf := by
  unfold send_bundle_with_increasing_gas_fees send_bundle_with_increasing_gas_fees_inner at hx
  rcases hnf : env.nonce_fees with e | ⟨nonce, fees0⟩ <;> rw [hnf] at hx
  · simp at hx
    subst hx
    simp at hform
  · dsimp only at hx
    rcases hrun : innerLoop cfg env.attempts nonce fees0 none 0
        (cfg.max_fee_increases + 1) with ⟨t, r⟩
    rw [hrun] at hx
    have hmem : x ∈ t → d.op_hashes = (opsFlat d.tx.ops_per_aggregator).map cfg.opHashOf := by
      intro hxt
      exact innerLoop_formedOkay cfg env.attempts nonce (cfg.max_fee_increases + 1)
        fees0 none 0 x (by rw [hrun]; exact hxt) id d nl k f hform
    cases r <;> dsimp only at hx <;> simp at hx <;>
      (rcases hx with hx | hx
       · subst hx
         simp at hform
       · exact hmem hx)

/-- The `formed_bundle` event the fixture run emits. -/
def formedX : TraceItem :=
  TraceItem.event (.formed_bundle 7
    (some { tx_hash := 99, tx := btxX.tx, op_hashes := [11003001, 12003001] }) 5 0 none)

/-- Witness for C5 at a concrete input. -/
theorem claim5_witness :
    formedX ∈ (send_bundle_with_increasing_gas_fees cfgX envX).1 ∧
    (11003001 :: 12003001 :: []) = (opsFlat btxX.tx.ops_per_aggregator).map cfgX.opHashOf :=
  ⟨by decide,
   claim5_op_hashes_match cfgX envX formedX (by decide) 7
     { tx_hash := 99, tx := btxX.tx, op_hashes := [11003001, 12003001] } 5 0 none rfl⟩

/-- The number of tracker submissions recorded in a trace. -/
def sendCount (tr : List TraceItem) : Nat := tr.countP isTrackerSend

lemma sendCount_plumbing (l : List TraceItem) (h : ∀ x ∈ l, plumbing x = true) :
    sendCount l = 0 := by
  unfold sendCount
  rw [List.countP_eq_zero]
  intro x hx
  simp [plumbing_not_send x (h x hx)]

lemma attemptStep_sendCount (cfg : BuilderConfig) (a : AttemptEnv) (nonce : Nat)
    (f : Option GasFees) (ioc : Option Nat) (k : Nat) :
    sendCount (attemptStep cfg a nonce f ioc k).1 ≤ 1 := by
  have hplumb : ∀ t1 r, get_bundle_tx cfg a nonce f = (t1, r) → sendCount t1 = 0 := by
    intro t1 r hg
    exact sendCount_plumbing t1 (fun x hx =>
      get_bundle_tx_plumbing cfg a nonce f x (by rw [hg]; exact hx))
  rcases attemptStep_shape cfg a nonce f ioc k with
    ⟨t1, m, hg, hstep⟩ | ⟨t1, hg, hcase⟩ | ⟨t1, btx, base, hg, hbase, hout⟩
  · rw [hstep]
    simp [hplumb t1 _ hg]
  · have h0 := hplumb t1 _ hg
    simp only [sendCount] at h0
    rcases hcase with ⟨_, hstep⟩ | ⟨n, _, hstep⟩ <;> rw [hstep] <;>
      simp only [sendCount, List.countP_append] <;>
      simp [List.countP_cons, List.countP_nil, isTrackerSend] <;>
      omega
  · have h0 := hplumb t1 _ hg
    simp only [sendCount] at h0
    have hbc : List.countP isTrackerSend base = 1 := by
      rcases hbase with rfl | ⟨hsh, _, rfl⟩ <;>
        simp only [List.countP_cons, List.countP_nil, isTrackerSend] <;> rfl
    rcases hout with ⟨m, hstep⟩ | ⟨u, hu, hstep⟩
    · rw [hstep]
      simp only [sendCount, List.countP_append]
      omega
    · rw [hstep]
      obtain ⟨extra, hdec, hcl⟩ := afterUpdate_decomp cfg (ioc.getD btx.op_hashes.length)
        btx.tx.fees (t1 ++ base) u
      rw [hdec]
      have hec : List.countP isTrackerSend extra = 0 := by
        rw [List.countP_eq_zero]
        intro x hx
        simp [classifyItem_not_send x (hcl x hx)]
      simp only [sendCount, List.countP_append]
      omega

lemma innerLoop_sendCount (cfg : BuilderConfig) (attempts : Nat → AttemptEnv)
    (nonce : Nat) :
    ∀ fuel f ioc k, sendCount (innerLoop cfg attempts nonce f ioc k fuel).1 ≤ fuel := by
  intro fuel
  induction fuel with
  | zero =>
    intro f ioc k
    rw [innerLoop_zero]
    simp [sendCount, isTrackerSend]
  | succ fuel ih =>
    intro f ioc k
    rcases hstep : attemptStep cfg (attempts k) nonce f ioc k with ⟨t, e⟩
    have hle : sendCount t ≤ 1 := by
      have := attemptStep_sendCount cfg (attempts k) nonce f ioc k
      rw [hstep] at this
      exact this
    cases e with
    | ret r =>
      rw [innerLoop_ret cfg attempts nonce f ioc k fuel t r hstep]
      dsimp only
      omega
    | err m =>
      rw [innerLoop_err cfg attempts nonce f ioc k fuel t m hstep]
      dsimp only
      omega
    | bump n cf =>
      rw [innerLoop_bump cfg attempts nonce f ioc k fuel t n cf hstep]
      have hrec := ih (some (cf.increase_by_percent cfg.replacement_fee_percent_increase))
        (some n) (k + 1)
      dsimp only
      simp only [sendCount, List.countP_append] at hle hrec ⊢
      omega

/-- C3: one call of `send_bundle_with_increasing_gas_fees` with
`max_fee_increases = K` invokes the tracker's `send_transaction` at most
`K + 1` times. -/
theorem claim3_send_count_le (cfg : BuilderConfig) (env : Env) :
    sendCount (send_bundle_with_increasing_gas_fees cfg env).1 ≤
      cfg.max_fee_increases + 1 := by
  unfold send_bundle_with_increasing_gas_fees send_bundle_with_increasing_gas_fees_inner
  rcases hnf : env.nonce_fees with e | ⟨nonce, fees0⟩ <;> dsimp only
  · simp [sendCount, List.countP_cons, isTrackerSend]
  · rcases hrun : innerLoop cfg env.attempts nonce fees0 none 0
        (cfg.max_fee_increases + 1) with ⟨t, r⟩
    have h := innerLoop_sendCount cfg env.attempts nonce (cfg.max_fee_increases + 1)
      fees0 none 0
    rw [hrun] at h
    dsimp only at h
    cases r <;> dsimp only <;>
      simp [sendCount, List.countP_cons, isTrackerSend] at h ⊢ <;> omega

/-- The events of a trace. -/
def eventsOf (tr : List TraceItem) : List TraceItem :=
  tr.filter fun x =>
    match x with
    | .event _ => true
    | _ => false

/-- The counter increments of a trace. -/
def metricsOf (tr : List TraceItem) : List TraceItem :=
  tr.filter fun x =>
    match x with
    | .metric _ => true
    | _ => false

/-- C7 counterexample: for a concrete `Mined` update the passive per-block
poll emits no event at all, while the inner escalation protocol's
classification of the same update emits a `transaction_mined` event, so the
two paths do not produce the same event emissions. -/
theorem claim7_counterexample :
    eventsOf (check_for_and_log_transaction_update 7
      (.ok (some (.Mined 99 5 { max_fee_per_gas := 10, max_priority_fee_per_gas := 1 } 1000 0)))) ≠
    eventsOf ((classifyUpdate 7
      (.Mined 99 5 { max_fee_per_gas := 10, max_priority_fee_per_gas := 1 } 1000 0)).1) := by
  decide

/-- C7 (amended): for every tracker update the passive per-block poll
increments exactly the same counters as the inner protocol's classification
of that update, and emits the same events except that a `Mined` update's
`transaction_mined` event is emitted only by the inner protocol — the passive
poll only logs and counts the success. -/
theorem claim7_amended (id : Nat) (u : TrackerUpdate) :
    metricsOf (check_for_and_log_transaction_update id (.ok (some u))) =
      metricsOf ((classifyUpdate id u).1) ∧
    eventsOf (check_for_and_log_transaction_update id (.ok (some u))) =
      (eventsOf ((classifyUpdate id u).1)).filter (fun x => !isMinedEvent x) := by
  cases u <;>
    simp [check_for_and_log_transaction_update, classifyUpdate, eventsOf, metricsOf,
      isMinedEvent, List.filter]

lemma send_bundle_fst_head (cfg : BuilderConfig) (env : Env) :
    ∃ rest, (send_bundle_with_increasing_gas_fees cfg env).1 =
      TraceItem.nonceQuery :: rest := by
  unfold send_bundle_with_increasing_gas_fees send_bundle_with_increasing_gas_fees_inner
  rcases hnf : env.nonce_fees with e | ⟨nonce, fees0⟩ <;> dsimp only
  · exact ⟨[], rfl⟩
  · rcases hrun : innerLoop cfg env.attempts nonce fees0 none 0
        (cfg.max_fee_increases + 1) with ⟨t, r⟩
    cases r <;> exact ⟨t, rfl⟩

/-- C10: when the passive per-block poll sees `NonceUsedForOtherTx` it only
emits the event and increments the counter; it produces no error and does not
end the iteration, which proceeds unchanged to a full escalation sequence
that starts by re-reading the nonce from the tracker. -/
theorem claim10_passive_nonce_used_nonfatal (cfg : BuilderConfig) (env : Env) (n : Nat) :
    ∃ rest,
      (loopIteration cfg (.ok (some (.NonceUsedForOtherTx n))) env).1 =
        TraceItem.event (.nonce_used_for_other_transaction cfg.id (low64 n)) ::
        TraceItem.metric .bundle_txns_nonce_used ::
        TraceItem.nonceQuery :: rest ∧
      (loopIteration cfg (.ok (some (.NonceUsedForOtherTx n))) env).2 =
        (send_bundle_with_increasing_gas_fees cfg env).2 := by
  obtain ⟨rest, hr⟩ := send_bundle_fst_head cfg env
  refine ⟨rest ++ (match (send_bundle_with_increasing_gas_fees cfg env).2 with
    | .Error _ => [TraceItem.metric .bundle_txns_failed]
    | _ => []), ?_, rfl⟩
  unfold loopIteration
  dsimp only
  rw [hr]
  simp [check_for_and_log_transaction_update]

lemma attemptStep_head (cfg : BuilderConfig) (a : AttemptEnv) (nonce : Nat)
    (f : Option GasFees) (ioc : Option Nat) (k : Nat) :
    ∃ rest, (attemptStep cfg a nonce f ioc k).1 = TraceItem.proposerRequest f :: rest := by
  obtain ⟨r0, hr0⟩ := get_bundle_tx_head cfg a nonce f
  have ht1 : ∀ t1 (r : Except String (Option BundleTx)),
      get_bundle_tx cfg a nonce f = (t1, r) → t1 = TraceItem.proposerRequest f :: r0 := by
    intro t1 r hg2
    have h2 := congrArg Prod.fst hg2
    dsimp at h2
    rw [← h2, hr0]
  rcases attemptStep_shape cfg a nonce f ioc k with
    ⟨t1, m, hg, hstep⟩ | ⟨t1, hg, hcase⟩ | ⟨t1, btx, base, hg, hbase, hout⟩
  · rw [hstep, ht1 t1 _ hg]
    exact ⟨r0, rfl⟩
  · rcases hcase with ⟨_, hstep⟩ | ⟨n, _, hstep⟩ <;> rw [hstep, ht1 t1 _ hg] <;>
      exact ⟨_, rfl⟩
  · rcases hout with ⟨m, hstep⟩ | ⟨u, hu, hstep⟩
    · rw [hstep, ht1 t1 _ hg]
      exact ⟨_, rfl⟩
    · obtain ⟨extra, hdec, _⟩ := afterUpdate_decomp cfg (ioc.getD btx.op_hashes.length)
        btx.tx.fees (t1 ++ base) u
      rw [hstep, hdec, ht1 t1 _ hg]
      exact ⟨_, rfl⟩

lemma innerLoop_head (cfg : BuilderConfig) (attempts : Nat → AttemptEnv) (nonce : Nat)
    (f : Option GasFees) (ioc : Option Nat) (k fuel : Nat) :
    ∃ rest, (innerLoop cfg attempts nonce f ioc k (fuel + 1)).1 =
      TraceItem.proposerRequest f :: rest := by
  obtain ⟨rest, hrest⟩ := attemptStep_head cfg (attempts k) nonce f ioc k
  rcases hstep : attemptStep cfg (attempts k) nonce f ioc k with ⟨t, e⟩
  have ht : t = TraceItem.proposerRequest f :: rest := by
    rw [hstep] at hrest
    exact hrest
  cases e with
  | ret r =>
    rw [innerLoop_ret cfg attempts nonce f ioc k fuel t r hstep]
    exact ⟨rest, ht⟩
  | err m =>
    rw [innerLoop_err cfg attempts nonce f ioc k fuel t m hstep]
    exact ⟨rest, ht⟩
  | bump n cf =>
    rw [innerLoop_bump cfg attempts nonce f ioc k fuel t n cf hstep]
    refine ⟨rest ++ (innerLoop cfg attempts nonce
      (some (cf.increase_by_percent cfg.replacement_fee_percent_increase))
      (some n) (k + 1) fuel).1, ?_⟩
    rw [ht]
    rfl

/-- An attempt that settles as still-pending or dropped ends in a fee bump
whose `current_fees` are the fees of the envelope it actually submitted. -/
lemma attemptStep_bump_of_update (cfg : BuilderConfig) (a : AttemptEnv) (nonce : Nat)
    (f : Option GasFees) (ioc : Option Nat) (k : Nat) (t1 : List TraceItem)
    (btx : BundleTx) (u : TrackerUpdate)
    (hg : get_bundle_tx cfg a nonce f = (t1, .ok (some btx)))
    (hu : attemptUpdate a = some u)
    (hcase : u = .StillPendingAfterWait ∨ ∃ n, u = .LatestTxDropped n) :
    ∃ T, attemptStep cfg a nonce f ioc k =
        (T, .bump (ioc.getD btx.op_hashes.length) btx.tx.fees) ∧
      TraceItem.trackerSend btx.tx btx.expected_storage ∈ T := by
  unfold attemptUpdate at hu
  rcases hs : a.send with e | sr
  · rw [hs] at hu
    simp at hu
  · cases sr with
    | TrackerUpdate u2 =>
      rw [hs] at hu
      simp at hu
      subst hu
      have heq := attemptStep_some_sync cfg a nonce f ioc k t1 btx u2 hg hs
      rcases hcase with rfl | ⟨n, rfl⟩
      · rw [heq, afterUpdate_pending]
        exact ⟨_, rfl, by simp⟩
      · rw [heq, afterUpdate_dropped]
        exact ⟨_, rfl, by simp⟩
    | TxHash hsh =>
      rcases hw : a.wait with e | u2
      · rw [hs, hw] at hu
        simp at hu
      · rw [hs, hw] at hu
        simp at hu
        subst hu
        have heq := attemptStep_some_async cfg a nonce f ioc k t1 btx hsh u2 hg hs hw
        rcases hcase with rfl | ⟨n, rfl⟩
        · rw [heq, afterUpdate_pending]
          exact ⟨_, rfl, by simp⟩
        · rw [heq, afterUpdate_dropped]
          exact ⟨_, rfl, by simp⟩

/-- C2: when an escalation attempt ends with `StillPendingAfterWait` or
`LatestTxDropped`, the fee floor handed to the proposer on the next attempt
is exactly the fees of the envelope actually submitted on this attempt
(`GasFees::from(&tx)`), raised by `replacement_fee_percent_increase` — not
the floor this attempt had requested. -/
theorem claim2_fee_bump_uses_submitted_fees (cfg : BuilderConfig)
    (attempts : Nat → AttemptEnv) (nonce : Nat) (f : Option GasFees)
    (ioc : Option Nat) (k fuel : Nat) (t1 : List TraceItem) (btx : BundleTx)
    (u : TrackerUpdate)
    (hg : get_bundle_tx cfg (attempts k) nonce f = (t1, .ok (some btx)))
    (hu : attemptUpdate (attempts k) = some u)
    (hcase : u = .StillPendingAfterWait ∨ ∃ n, u = .LatestTxDropped n) :
    ∃ tr rest,
      (innerLoop cfg attempts nonce f ioc k (fuel + 2)).1 =
        tr ++ TraceItem.proposerRequest
          (some (btx.tx.fees.increase_by_percent cfg.replacement_fee_percent_increase)) ::
          rest ∧
      TraceItem.trackerSend btx.tx btx.expected_storage ∈ tr := by
  obtain ⟨T, hstep, hmem⟩ :=
    attemptStep_bump_of_update cfg (attempts k) nonce f ioc k t1 btx u hg hu hcase
  have hloop := innerLoop_bump cfg attempts nonce f ioc k (fuel + 1) T
    (ioc.getD btx.op_hashes.length) btx.tx.fees hstep
  obtain ⟨rest, hhead⟩ := innerLoop_head cfg attempts nonce
    (some (btx.tx.fees.increase_by_percent cfg.replacement_fee_percent_increase))
    (some (ioc.getD btx.op_hashes.length)) (k + 1) fuel
  refine ⟨T, rest, ?_, hmem⟩
  have h2 : fuel + 2 = fuel + 1 + 1 := rfl
  rw [h2, hloop, hhead]

/-- Witness for C2 at a concrete input: the pending attempt submitted fees
`{10, 1}` and the next proposer request floors at `{12, 2}`. -/
theorem claim2_witness :
    ∃ tr rest,
      (innerLoop cfgX envS2.attempts 5 none none 0 (0 + 2)).1 =
        tr ++ TraceItem.proposerRequest
          (some (btxX.tx.fees.increase_by_percent cfgX.replacement_fee_percent_increase)) ::
          rest ∧
      TraceItem.trackerSend btxX.tx btxX.expected_storage ∈ tr :=
  claim2_fee_bump_uses_submitted_fees cfgX envS2.attempts 5 none none 0 0 traceGbtX
    btxX .StillPendingAfterWait rfl rfl (Or.inl rfl)

lemma afterUpdate_snd_bump (cfg : BuilderConfig) (ioc : Nat) (cf : GasFees)
    (t : List TraceItem) (u : TrackerUpdate) (n : Nat) (cf2 : GasFees)
    (hA : (afterUpdate cfg ioc cf t u).2 = .bump n cf2) : n = ioc ∧ cf2 = cf := by
  cases u <;> simp [afterUpdate, classifyUpdate] at hA <;> tauto

/-- A fee-bump step arises from a non-empty bundle; its recorded op count and
`current_fees` come from the built bundle transaction. -/
lemma attemptStep_bump_src (cfg : BuilderConfig) (a : AttemptEnv) (nonce : Nat)
    (f : Option GasFees) (ioc : Option Nat) (k : Nat) (T : List TraceItem)
    (n : Nat) (cf : GasFees)
    (h : attemptStep cfg a nonce f ioc k = (T, .bump n cf)) :
    ∃ t1 btx, get_bundle_tx cfg a nonce f = (t1, .ok (some btx)) ∧
      n = ioc.getD btx.op_hashes.length ∧ cf = btx.tx.fees := by
  rcases attemptStep_shape cfg a nonce f ioc k with
    ⟨t1, m, hg, hstep⟩ | ⟨t1, hg, hcase⟩ | ⟨t1, btx, base, hg, hbase, hout⟩
  · rw [hstep] at h
    simp at h
  · rcases hcase with ⟨_, hstep⟩ | ⟨n2, _, hstep⟩ <;> rw [hstep] at h <;> simp at h
  · rcases hout with ⟨m, hstep⟩ | ⟨u, hu, hstep⟩
    · rw [hstep] at h
      simp at h
    · have hA := congrArg Prod.snd (hstep.symm.trans h)
      dsimp at hA
      obtain ⟨hn, hcf⟩ := afterUpdate_snd_bump cfg (ioc.getD btx.op_hashes.length)
        btx.tx.fees (t1 ++ base) u n cf hA
      exact ⟨t1, btx, hg, hn, hcf⟩

/-- A fee-bump step never counts an abandonment. -/
lemma attemptStep_bump_no_abandoned (cfg : BuilderConfig) (a : AttemptEnv) (nonce : Nat)
    (f : Option GasFees) (ioc : Option Nat) (k : Nat) (T : List TraceItem)
    (n : Nat) (cf : GasFees)
    (h : attemptStep cfg a nonce f ioc k = (T, .bump n cf)) :
    TraceItem.metric .bundle_txns_abandoned ∉ T := by
  rcases attemptStep_shape cfg a nonce f ioc k with
    ⟨t1, m, hg, hstep⟩ | ⟨t1, hg, hcase⟩ | ⟨t1, btx, base, hg, hbase, hout⟩
  · rw [hstep] at h
    simp at h
  · rcases hcase with ⟨_, hstep⟩ | ⟨n2, _, hstep⟩ <;> rw [hstep] at h <;> simp at h
  · have ht1 : ∀ x ∈ t1, plumbing x = true := fun x hx =>
      get_bundle_tx_plumbing cfg a nonce f x (by rw [hg]; exact hx)
    rcases hout with ⟨m, hstep⟩ | ⟨u, hu, hstep⟩
    · rw [hstep] at h
      simp at h
    · have hA := hstep.symm.trans h
      obtain ⟨extra, hdec, hcl⟩ := afterUpdate_decomp cfg (ioc.getD btx.op_hashes.length)
        btx.tx.fees (t1 ++ base) u
      have hT : T = (t1 ++ base) ++ extra := by
        have h2 := congrArg Prod.fst hA
        dsimp at h2
        rw [← h2, hdec]
      subst hT
      intro hmem
      simp only [List.mem_append] at hmem
      rcases hmem with (hmem | hmem) | hmem
      · have h3 := ht1 _ hmem
        simp [plumbing] at h3
      · rcases hbase with rfl | ⟨hsh, _, rfl⟩ <;> simp at hmem
      · exact (classifyItem_not_abandoned _ (hcl _ hmem)) rfl

/-- Reaching attempt `k` of the escalation loop: the full run's trace is the
concatenation of the earlier fee-bump segments — none of which counts an
abandonment — with the run from attempt `k` in the state `stateAt` records. -/
lemma innerLoop_reach (cfg : BuilderConfig) (attempts : Nat → AttemptEnv)
    (nonce : Nat) (fees0 : Option GasFees) :
    ∀ k f i fuel, stateAt cfg attempts nonce fees0 k = some (f, i) →
    ∃ pre, innerLoop cfg attempts nonce fees0 none 0 (k + fuel) =
        (pre ++ (innerLoop cfg attempts nonce f i k fuel).1,
         (innerLoop cfg attempts nonce f i k fuel).2) ∧
      TraceItem.metric .bundle_txns_abandoned ∉ pre := by
  intro k
  induction k with
  | zero =>
    intro f i fuel hst
    simp [stateAt] at hst
    obtain ⟨rfl, rfl⟩ := hst
    refine ⟨[], ?_, by simp⟩
    rw [Nat.zero_add]
    simp
  | succ k ih =>
    intro f i fuel hst
    rw [stateAt] at hst
    rcases hprev : stateAt cfg attempts nonce fees0 k with _ | ⟨f2, i2⟩
    · rw [hprev] at hst
      simp at hst
    · rw [hprev] at hst
      dsimp only at hst
      rcases hstep : attemptStep cfg (attempts k) nonce f2 i2 k with ⟨T, e⟩
      rw [hstep] at hst
      dsimp only at hst
      cases e with
      | ret r => simp at hst
      | err m => simp at hst
      | bump n cf =>
        simp at hst
        obtain ⟨rfl, rfl⟩ := hst
        obtain ⟨pre, hpre, hab⟩ := ih f2 i2 (fuel + 1) hprev
        have hb := innerLoop_bump cfg attempts nonce f2 i2 k fuel T n cf hstep
        have habT := attemptStep_bump_no_abandoned cfg (attempts k) nonce f2 i2 k T n cf hstep
        refine ⟨pre ++ T, ?_, ?_⟩
        · have hkf : k + 1 + fuel = k + (fuel + 1) := by omega
          rw [hkf, hpre, hb]
          simp
        · intro hmem
          rcases List.mem_append.mp hmem with h2 | h2
          exacts [hab h2, habT h2]

/-- An attempt whose submission is classified `NonceUsedForOtherTx` emits the
event and counter and then aborts with the `bail!` message. -/
lemma attemptStep_nonce_used (cfg : BuilderConfig) (a : AttemptEnv) (nonce : Nat)
    (f : Option GasFees) (ioc : Option Nat) (k : Nat) (t1 : List TraceItem)
    (btx : BundleTx) (n : Nat)
    (hg : get_bundle_tx cfg a nonce f = (t1, .ok (some btx)))
    (hu : attemptUpdate a = some (.NonceUsedForOtherTx n)) :
    ∃ T0, attemptStep cfg a nonce f ioc k =
      (T0 ++ [TraceItem.event (.nonce_used_for_other_transaction cfg.id (low64 n)),
              TraceItem.metric .bundle_txns_nonce_used],
       .err "nonce used by external transaction") := by
  unfold attemptUpdate at hu
  rcases hs : a.send with e | sr
  · rw [hs] at hu
    simp at hu
  · cases sr with
    | TrackerUpdate u2 =>
      rw [hs] at hu
      simp at hu
      subst hu
      have heq := attemptStep_some_sync cfg a nonce f ioc k t1 btx _ hg hs
      rw [heq, afterUpdate_nonce_used]
      exact ⟨_, rfl⟩
    | TxHash hsh =>
      rcases hw : a.wait with e | u2
      · rw [hs, hw] at hu
        simp at hu
      · rw [hs, hw] at hu
        simp at hu
        subst hu
        have heq := attemptStep_some_async cfg a nonce f ioc k t1 btx hsh _ hg hs hw
        rw [heq, afterUpdate_nonce_used]
        exact ⟨_, rfl⟩

/-- C4: when an escalation attempt's submission is classified as
`NonceUsedForOtherTx{nonce}`, the loop emits the
`nonce_used_for_other_transaction` event with the low 64 bits of that nonce,
increments `bundle_txns_nonce_used`, and `send_bundle_with_increasing_gas_fees`
returns `SendBundleResult::Error` — the trace ends right there, with no fee
bump and no further attempt. -/
theorem claim4_nonce_used_aborts (cfg : BuilderConfig) (env : Env) (nonce : Nat)
    (fees0 f : Option GasFees) (i : Option Nat) (k : Nat) (t1 : List TraceItem)
    (btx : BundleTx) (n : Nat)
    (hnf : env.nonce_fees = .ok (nonce, fees0))
    (hk : k ≤ cfg.max_fee_increases)
    (hst : stateAt cfg env.attempts nonce fees0 k = some (f, i))
    (hg : get_bundle_tx cfg (env.attempts k) nonce f = (t1, .ok (some btx)))
    (hu : attemptUpdate (env.attempts k) = some (.NonceUsedForOtherTx n)) :
    (send_bundle_with_increasing_gas_fees cfg env).2 =
      .Error "nonce used by external transaction" ∧
    ∃ xs, (send_bundle_with_increasing_gas_fees cfg env).1 =
      xs ++ [TraceItem.event (.nonce_used_for_other_transaction cfg.id (low64 n)),
             TraceItem.metric .bundle_txns_nonce_used] := by
  obtain ⟨T0, hstep⟩ := attemptStep_nonce_used cfg (env.attempts k) nonce f i k t1 btx n hg hu
  have hinner := innerLoop_err cfg env.attempts nonce f i k (cfg.max_fee_increases - k)
    _ _ hstep
  obtain ⟨pre, hreach, _⟩ := innerLoop_reach cfg env.attempts nonce fees0 k f i
    (cfg.max_fee_increases - k + 1) hst
  have hfuel : cfg.max_fee_increases + 1 = k + (cfg.max_fee_increases - k + 1) := by omega
  unfold send_bundle_with_increasing_gas_fees send_bundle_with_increasing_gas_fees_inner
  rw [hnf]
  dsimp only
  rw [hfuel, hreach, hinner]
  dsimp only
  refine ⟨rfl, ⟨TraceItem.nonceQuery :: (pre ++ T0), ?_⟩⟩
  simp

/-- Witness for C4 at a concrete input. -/
theorem claim4_witness :
    attemptUpdate (envNonceUsed.attempts 0) = some (.NonceUsedForOtherTx 5) ∧
    (send_bundle_with_increasing_gas_fees cfgX envNonceUsed).2 =
      .Error "nonce used by external transaction" :=
  ⟨rfl, (claim4_nonce_used_aborts cfgX envNonceUsed 5 none none none 0 traceGbtX
    btxX 5 rfl (by decide) rfl rfl rfl).1⟩

lemma stateAt_zero_inv (cfg : BuilderConfig) (attempts : Nat → AttemptEnv)
    (nonce : Nat) (fees0 f : Option GasFees) (i : Option Nat)
    (h : stateAt cfg attempts nonce fees0 0 = some (f, i)) :
    f = fees0 ∧ i = none := by
  rw [stateAt] at h
  simp at h
  tauto

/-- At any reached attempt `k ≥ 1`, the recorded initial op count is the op
count of the bundle built at attempt 0 — the first non-empty bundle. -/
lemma stateAt_first_count (cfg : BuilderConfig) (attempts : Nat → AttemptEnv)
    (nonce : Nat) (fees0 : Option GasFees) :
    ∀ k f i, stateAt cfg attempts nonce fees0 (k + 1) = some (f, i) →
      ∃ t0 btx0, get_bundle_tx cfg (attempts 0) nonce fees0 = (t0, .ok (some btx0)) ∧
        i = some btx0.op_hashes.length := by
  intro k
  induction k with
  | zero =>
    intro f i hst
    rw [stateAt] at hst
    rw [stateAt] at hst
    dsimp only at hst
    rcases hstep : attemptStep cfg (attempts 0) nonce fees0 none 0 with ⟨T, e⟩
    rw [hstep] at hst
    dsimp only at hst
    cases e with
    | ret r => simp at hst
    | err m => simp at hst
    | bump n cf =>
      simp at hst
      obtain ⟨rfl, rfl⟩ := hst
      obtain ⟨t1, btx, hg, hn, _⟩ :=
        attemptStep_bump_src cfg (attempts 0) nonce fees0 none 0 T n cf hstep
      exact ⟨t1, btx, hg, by simp [hn]⟩
  | succ k ih =>
    intro f i hst
    rw [stateAt] at hst
    rcases hprev : stateAt cfg attempts nonce fees0 (k + 1) with _ | ⟨f2, i2⟩
    · rw [hprev] at hst
      simp at hst
    · rw [hprev] at hst
      dsimp only at hst
      obtain ⟨t0, btx0, hg0, hi2⟩ := ih f2 i2 hprev
      rcases hstep : attemptStep cfg (attempts (k + 1)) nonce f2 i2 (k + 1) with ⟨T, e⟩
      rw [hstep] at hst
      dsimp only at hst
      cases e with
      | ret r => simp at hst
      | err m => simp at hst
      | bump n cf =>
        simp at hst
        obtain ⟨rfl, rfl⟩ := hst
        obtain ⟨t1, btx, hg, hn, _⟩ :=
          attemptStep_bump_src cfg (attempts (k + 1)) nonce f2 i2 (k + 1) T n cf hstep
        subst hi2
        exact ⟨t0, btx0, hg0, by simp [hn]⟩

/-- C1: when `get_bundle_tx` produces no transaction at a reached attempt
`k`, the loop emits a `formed_bundle` event with no details and terminates:
with `NoOperationsInitially` when no earlier attempt produced a non-empty
bundle (equivalently, `k = 0`), and otherwise with
`NoOperationsAfterFeeIncreases` carrying the op count of the first non-empty
bundle (attempt 0's) and the current attempt number, counting an abandonment
only in the latter case. -/
theorem claim1_empty_bundle_termination (cfg : BuilderConfig) (env : Env)
    (nonce : Nat) (fees0 f : Option GasFees) (i : Option Nat) (k : Nat)
    (t1 : List TraceItem)
    (hnf : env.nonce_fees = .ok (nonce, fees0))
    (hk : k ≤ cfg.max_fee_increases)
    (hst : stateAt cfg env.attempts nonce fees0 k = some (f, i))
    (hg : get_bundle_tx cfg (env.attempts k) nonce f = (t1, .ok none)) :
    (send_bundle_with_increasing_gas_fees cfg env).2 =
      (match i with
       | none => .NoOperationsInitially
       | some n => .NoOperationsAfterFeeIncreases n k) ∧
    (∃ xs, (send_bundle_with_increasing_gas_fees cfg env).1 =
        xs ++ TraceItem.event (.formed_bundle cfg.id none (low64 nonce) k f) ::
          (match i with
           | none => ([] : List TraceItem)
           | some _ => [TraceItem.metric .bundle_txns_abandoned]) ∧
      TraceItem.metric .bundle_txns_abandoned ∉ xs) ∧
    (i = none ↔ k = 0) ∧
    (∀ n, i = some n → ∃ t0 btx0,
      get_bundle_tx cfg (env.attempts 0) nonce fees0 = (t0, .ok (some btx0)) ∧
      n = btx0.op_hashes.length) := by
  obtain ⟨pre, hreach, hpreab⟩ := innerLoop_reach cfg env.attempts nonce fees0 k f i
    (cfg.max_fee_increases - k + 1) hst
  have hfuel : cfg.max_fee_increases + 1 = k + (cfg.max_fee_increases - k + 1) := by omega
  have ht1ab : TraceItem.metric .bundle_txns_abandoned ∉ t1 := by
    intro hmem
    have h2 := get_bundle_tx_plumbing cfg (env.attempts k) nonce f _ (by rw [hg]; exact hmem)
    simp [plumbing] at h2
  have hiffzero : i = none ↔ k = 0 := by
    constructor
    · intro hi
      by_contra hk0
      obtain ⟨j, rfl⟩ : ∃ j, k = j + 1 := ⟨k - 1, by omega⟩
      obtain ⟨t0, btx0, _, hi2⟩ := stateAt_first_count cfg env.attempts nonce fees0 j f i hst
      rw [hi] at hi2
      simp at hi2
    · intro hk0
      subst hk0
      exact (stateAt_zero_inv cfg env.attempts nonce fees0 f i hst).2
  have hfirst : ∀ n, i = some n → ∃ t0 btx0,
      get_bundle_tx cfg (env.attempts 0) nonce fees0 = (t0, .ok (some btx0)) ∧
      n = btx0.op_hashes.length := by
    intro n hi
    cases k with
    | zero =>
      have h2 := (stateAt_zero_inv cfg env.attempts nonce fees0 f i hst).2
      rw [hi] at h2
      simp at h2
    | succ j =>
      obtain ⟨t0, btx0, hg0, hi0⟩ := stateAt_first_count cfg env.attempts nonce fees0 j f i hst
      rw [hi] at hi0
      simp at hi0
      exact ⟨t0, btx0, hg0, hi0⟩
  cases i with
  | none =>
    have hstep := attemptStep_empty_none cfg (env.attempts k) nonce f k t1 hg
    have hinner := innerLoop_ret cfg env.attempts nonce f none k
      (cfg.max_fee_increases - k) _ _ hstep
    unfold send_bundle_with_increasing_gas_fees send_bundle_with_increasing_gas_fees_inner
    rw [hnf]
    dsimp only
    rw [hfuel, hreach, hinner]
    dsimp only
    refine ⟨rfl, ⟨TraceItem.nonceQuery :: (pre ++ t1), ?_, ?_⟩, hiffzero, hfirst⟩
    · simp
    · intro hmem
      simp at hmem
      rcases hmem with hmem | hmem
      exacts [hpreab hmem, ht1ab hmem]
  | some n =>
    have hstep := attemptStep_empty_some cfg (env.attempts k) nonce f k n t1 hg
    have hinner := innerLoop_ret cfg env.attempts nonce f (some n) k
      (cfg.max_fee_increases - k) _ _ hstep
    unfold send_bundle_with_increasing_gas_fees send_bundle_with_increasing_gas_fees_inner
    rw [hnf]
    dsimp only
    rw [hfuel, hreach, hinner]
    dsimp only
    refine ⟨rfl, ⟨TraceItem.nonceQuery :: (pre ++ t1), ?_, ?_⟩, hiffzero, hfirst⟩
    · simp
    · intro hmem
      simp at hmem
      rcases hmem with hmem | hmem
      exacts [hpreab hmem, ht1ab hmem]

/-- The trace of `get_bundle_tx` for the empty bundle at the bumped floor. -/
def traceGbtEmpty : List TraceItem :=
  [.proposerRequest (some { max_fee_per_gas := 12, max_priority_fee_per_gas := 2 }),
   .poolRemoveOps 3 [21003001, 22003001], .poolRemoveEntities 3 [31]]

/-- Witness for C1 at a concrete input: attempt 0 was non-empty (2 ops) and
stayed pending; attempt 1 is empty, so the run ends with
`NoOperationsAfterFeeIncreases{2, 1}`. -/
theorem claim1_witness :
    stateAt cfgX envS3.attempts 5 none 1 =
      some (some { max_fee_per_gas := 12, max_priority_fee_per_gas := 2 }, some 2) ∧
    (send_bundle_with_increasing_gas_fees cfgX envS3).2 =
      .NoOperationsAfterFeeIncreases 2 1 :=
  ⟨by decide,
   (claim1_empty_bundle_termination cfgX envS3 5 none
     (some { max_fee_per_gas := 12, max_priority_fee_per_gas := 2 }) (some 2) 1
     traceGbtEmpty rfl (by decide) (by decide) rfl).1⟩

/-! ### C8: ordering of formed-bundle and fate events -/

/-- A `formed_bundle` event with details whose transaction hash is `h`. -/
def formsHash (h : Nat) (x : TraceItem) : Bool :=
  match x with
  | .event (.formed_bundle _ (some d) _ _ _) => d.tx_hash == h
  | _ => false

/-- A `formed_bundle` event with details at nonce-low `nl`. -/
def formedWithNonce (nl : Nat) (x : TraceItem) : Bool :=
  match x with
  | .event (.formed_bundle _ (some _) nl2 _ _) => nl2 == nl
  | _ => false

/-- Whether a fate event (`transaction_mined`, `latest_transaction_dropped`,
`nonce_used_for_other_transaction`) is preceded in `seen` by a `formed_bundle`
event carrying the details of the transaction it concerns — keyed by hash for
mined, by nonce for dropped and nonce-used.  Non-fate items need nothing. -/
def fateNeedsFormed (seen : List TraceItem) (x : TraceItem) : Bool :=
  match x with
  | .event (.transaction_mined _ h _ _) => seen.any (formsHash h)
  | .event (.latest_transaction_dropped _ nl) => seen.any (formedWithNonce nl)
  | .event (.nonce_used_for_other_transaction _ nl) => seen.any (formedWithNonce nl)
  | _ => true

/-- The claim's ordering property: scanning the trace left to right, every
fate event is preceded by a `formed_bundle` event with the details of the
transaction it concerns. -/
def formedBeforeFate : List TraceItem → List TraceItem → Bool
  | _, [] => true
  | seen, x :: rest => fateNeedsFormed seen x && formedBeforeFate (seen ++ [x]) rest

/-- C8 counterexample: when `send_transaction` resolves synchronously with
`SendResult::TrackerUpdate (Mined ..)`, no `formed_bundle` event is emitted
for the submission at all, so the `transaction_mined` event concerning it has
no preceding `formed_bundle` — the claimed ordering fails on this concrete
run. -/
theorem claim8_counterexample :
    formedBeforeFate [] ((send_bundle_with_increasing_gas_fees cfgX envSync).1) = false := by
  decide

lemma plumbing_not_mined (x : TraceItem) (h : plumbing x = true) :
    isMinedEvent x = false := by
  cases x <;> simp [plumbing, isMinedEvent] at h ⊢

lemma mined_mem_of_split (tr xs ys : List TraceItem) (m : TraceItem)
    (h : tr = xs ++ m :: ys) : m ∈ tr := by
  subst h
  exact List.mem_append_right _ (List.mem_cons_self _ _)

/-- Splitting a concatenation at a mined event skips any mined-free prefix. -/
lemma append_split_skip (l1 : List TraceItem) (l2 xs ys : List TraceItem) (m : TraceItem)
    (h : l1 ++ l2 = xs ++ m :: ys) (hfree : ∀ x ∈ l1, isMinedEvent x = false)
    (hm : isMinedEvent m = true) :
    ∃ xs2, xs = l1 ++ xs2 ∧ l2 = xs2 ++ m :: ys := by
  induction l1 generalizing xs with
  | nil => exact ⟨xs, rfl, h⟩
  | cons a l1 ih =>
    cases xs with
    | nil =>
      simp at h
      obtain ⟨rfl, -⟩ := h
      have h4 := hfree a (by simp)
      rw [h4] at hm
      simp at hm
    | cons c xs =>
      simp at h
      obtain ⟨rfl, h2⟩ := h
      obtain ⟨xs2, rfl, h3⟩ := ih xs h2 (fun x hx => hfree x (by simp [hx]))
      exact ⟨xs2, rfl, h3⟩

/-- Every `attemptStep` trace is either free of `transaction_mined` events or
ends with exactly one, followed by the success counter, in which case the
step returned. -/
lemma attemptStep_mined_split (cfg : BuilderConfig) (a : AttemptEnv) (nonce : Nat)
    (f : Option GasFees) (ioc : Option Nat) (k : Nat) (T : List TraceItem) (e : StepEnd)
    (h : attemptStep cfg a nonce f ioc k = (T, e)) :
    (∀ x ∈ T, isMinedEvent x = false) ∨
    (∃ pre id2 h2 nl b, T = pre ++ [TraceItem.event (.transaction_mined id2 h2 nl b),
        TraceItem.metric .bundle_txns_success] ∧ (∀ x ∈ pre, isMinedEvent x = false) ∧
      ∃ r, e = StepEnd.ret r) := by
  have hplumb : ∀ t1 (r : Except String (Option BundleTx)),
      get_bundle_tx cfg a nonce f = (t1, r) → ∀ x ∈ t1, isMinedEvent x = false := by
    intro t1 r hg x hx
    exact plumbing_not_mined x
      (get_bundle_tx_plumbing cfg a nonce f x (by rw [hg]; exact hx))
  rcases attemptStep_shape cfg a nonce f ioc k with
    ⟨t1, m, hg, hstep⟩ | ⟨t1, hg, hcase⟩ | ⟨t1, btx, base, hg, hbase, hout⟩
  · left
    rw [hstep] at h
    injection h with h1 h2
    subst h1
    exact hplumb _ _ hg
  · left
    rcases hcase with ⟨_, hstep⟩ | ⟨n, _, hstep⟩ <;> rw [hstep] at h <;>
      injection h with h1 h2 <;> subst h1 <;>
      intro x hx <;> simp at hx <;>
      (rcases hx with hx | hx
       · exact hplumb t1 _ hg x hx
       · first
         | (subst hx; rfl)
         | (rcases hx with hx | hx <;> subst hx <;> rfl))
  · have hbasefree : ∀ x ∈ base, isMinedEvent x = false := by
      intro x hx
      rcases hbase with rfl | ⟨hsh, _, rfl⟩ <;> simp at hx
      · rcases hx with rfl | rfl | rfl <;> rfl
      · rcases hx with rfl | rfl | rfl | rfl <;> rfl
    have ht1base : ∀ x ∈ t1 ++ base, isMinedEvent x = false := by
      intro x hx
      rcases List.mem_append.mp hx with hx | hx
      exacts [hplumb t1 _ hg x hx, hbasefree x hx]
    rcases hout with ⟨m, hstep⟩ | ⟨u, hu, hstep⟩
    · left
      rw [hstep] at h
      injection h with h1 h2
      subst h1
      exact ht1base
    · have hA := hstep.symm.trans h
      cases u with
      | Mined h3 n3 gf b3 a3 =>
        right
        rw [afterUpdate_mined] at hA
        injection hA with h1 h2
        subst h1
        exact ⟨t1 ++ base, cfg.id, h3, low64 n3, b3, by simp, ht1base, _, h2.symm⟩
      | StillPendingAfterWait =>
        left
        rw [afterUpdate_pending] at hA
        injection hA with h1 h2
        subst h1
        intro x hx
        rcases List.mem_append.mp hx with hx | hx
        · exact ht1base x hx
        · simp at hx
          subst hx
          rfl
      | LatestTxDropped n3 =>
        left
        rw [afterUpdate_dropped] at hA
        injection hA with h1 h2
        subst h1
        intro x hx
        rcases List.mem_append.mp hx with hx | hx
        · exact ht1base x hx
        · simp at hx
          rcases hx with rfl | rfl | rfl <;> rfl
      | NonceUsedForOtherTx n3 =>
        left
        rw [afterUpdate_nonce_used] at hA
        injection hA with h1 h2
        subst h1
        intro x hx
        rcases List.mem_append.mp hx with hx | hx
        · exact ht1base x hx
        · simp at hx
          rcases hx with rfl | rfl <;> rfl

/-- In the escalation loop's trace, a `transaction_mined` event is always the
final event: only the success counter follows it. -/
lemma innerLoop_mined_last (cfg : BuilderConfig) (attempts : Nat → AttemptEnv)
    (nonce : Nat) :
    ∀ fuel f ioc k xs id2 h2 nl b ys,
      (innerLoop cfg attempts nonce f ioc k fuel).1 =
        xs ++ TraceItem.event (.transaction_mined id2 h2 nl b) :: ys →
      ys = [TraceItem.metric .bundle_txns_success] := by
  intro fuel
  induction fuel with
  | zero =>
    intro f ioc k xs id2 h2 nl b ys h
    rw [innerLoop_zero] at h
    have := mined_mem_of_split _ xs ys _ h
    simp at this
  | succ fuel ih =>
    intro f ioc k xs id2 h2 nl b ys h
    rcases hstep : attemptStep cfg (attempts k) nonce f ioc k with ⟨T, e⟩
    rcases attemptStep_mined_split cfg (attempts k) nonce f ioc k T e hstep with
      hfree | ⟨pre2, id3, h3, nl3, b3, hT, hpre2, r, hret⟩
    · cases e with
      | ret r =>
        rw [innerLoop_ret cfg attempts nonce f ioc k fuel T r hstep] at h
        dsimp at h
        have hmem := mined_mem_of_split _ xs ys _ h
        have := hfree _ hmem
        simp [isMinedEvent] at this
      | err m =>
        rw [innerLoop_err cfg attempts nonce f ioc k fuel T m hstep] at h
        dsimp at h
        have hmem := mined_mem_of_split _ xs ys _ h
        have := hfree _ hmem
        simp [isMinedEvent] at this
      | bump n cf =>
        rw [innerLoop_bump cfg attempts nonce f ioc k fuel T n cf hstep] at h
        dsimp at h
        obtain ⟨xs2, -, hsplit⟩ := append_split_skip T _ xs ys _ h hfree rfl
        exact ih _ _ _ xs2 id2 h2 nl b ys hsplit
    · cases e with
      | ret r2 =>
        rw [innerLoop_ret cfg attempts nonce f ioc k fuel T r2 hstep] at h
        dsimp at h
        rw [hT] at h
        obtain ⟨xs2, -, hsplit⟩ := append_split_skip pre2 _ xs ys _ h hpre2 rfl
        cases xs2 with
        | nil =>
          simp at hsplit
          exact hsplit.2.symm
        | cons c xs2 =>
          cases xs2 with
          | nil =>
            simp at hsplit
          | cons c2 xs2 =>
            have hlen := congrArg List.length hsplit
            simp at hlen
      | err m =>
        exact StepEnd.noConfusion hret
      | bump n cf =>
        exact StepEnd.noConfusion hret

/-- The three fate events a tracker update classification can emit. -/
def isFateEvent (x : TraceItem) : Bool :=
  match x with
  | .event (.transaction_mined _ _ _ _) => true
  | .event (.latest_transaction_dropped _ _) => true
  | .event (.nonce_used_for_other_transaction _ _) => true
  | _ => false

lemma plumbing_not_fate (x : TraceItem) (h : plumbing x = true) :
    isFateEvent x = false := by
  cases x <;> simp [plumbing, isFateEvent] at h ⊢

/-- Splitting a concatenation at an item satisfying `P` skips any `P`-free
prefix. -/
lemma split_skipP (P : TraceItem → Bool) (l1 : List TraceItem)
    (l2 xs ys : List TraceItem) (m : TraceItem)
    (h : l1 ++ l2 = xs ++ m :: ys) (hfree : ∀ x ∈ l1, P x = false)
    (hm : P m = true) :
    ∃ xs2, xs = l1 ++ xs2 ∧ l2 = xs2 ++ m :: ys := by
  induction l1 generalizing xs with
  | nil => exact ⟨xs, rfl, h⟩
  | cons a l1 ih =>
    cases xs with
    | nil =>
      simp at h
      obtain ⟨rfl, -⟩ := h
      have h4 := hfree a (by simp)
      rw [h4] at hm
      simp at hm
    | cons c xs =>
      simp at h
      obtain ⟨rfl, h2⟩ := h
      obtain ⟨xs2, rfl, h3⟩ := ih xs h2 (fun x hx => hfree x (by simp [hx]))
      exact ⟨xs2, rfl, h3⟩

/-- In an `attemptStep` trace, every fate event directly follows either the
`formed_bundle` event carrying the submitted transaction's details — itself
directly following that transaction's `trackerSend` — or, when the tracker
resolved the submission synchronously, the bare `trackerSend` call. -/
lemma attemptStep_fate_pred (cfg : BuilderConfig) (a : AttemptEnv) (nonce : Nat)
    (f : Option GasFees) (ioc : Option Nat) (k : Nat) (T : List TraceItem) (e : StepEnd)
    (h : attemptStep cfg a nonce f ioc k = (T, e)) :
    ∀ xs x ys, T = xs ++ x :: ys → isFateEvent x = true →
      (∃ xs2 T2 s, xs = xs2 ++ [TraceItem.trackerSend T2 s]) ∨
      (∃ (xs2 : List TraceItem) (d : BundleTxDetails) (id3 nl3 k3 : Nat)
          (f3 : Option GasFees) (s : Nat),
        xs = xs2 ++ [TraceItem.trackerSend d.tx s,
                     TraceItem.event (.formed_bundle id3 (some d) nl3 k3 f3)]) := by
  have hplumb : ∀ t1 (r : Except String (Option BundleTx)),
      get_bundle_tx cfg a nonce f = (t1, r) → ∀ x ∈ t1, isFateEvent x = false := by
    intro t1 r hg x hx
    exact plumbing_not_fate x
      (get_bundle_tx_plumbing cfg a nonce f x (by rw [hg]; exact hx))
  intro xs x ys hT hx
  rcases attemptStep_shape cfg a nonce f ioc k with
    ⟨t1, m, hg, hstep⟩ | ⟨t1, hg, hcase⟩ | ⟨t1, btx, base, hg, hbase, hout⟩
  · rw [hstep] at h
    injection h with h1 h2
    subst h1
    have hmem := mined_mem_of_split _ xs ys _ hT
    rw [hplumb _ _ hg x hmem] at hx
    simp at hx
  · rcases hcase with ⟨_, hstep⟩ | ⟨n, _, hstep⟩ <;> rw [hstep] at h <;>
      injection h with h1 h2 <;> subst h1 <;>
      (have hmem := mined_mem_of_split _ xs ys _ hT) <;> simp at hmem <;>
      (rcases hmem with hmem | hmem
       · rw [hplumb _ _ hg x hmem] at hx
         simp at hx
       · first
         | (subst hmem; simp [isFateEvent] at hx)
         | (rcases hmem with hmem | hmem <;> subst hmem <;> simp [isFateEvent] at hx))
  · have hbasefate : ∀ x2 ∈ base, isFateEvent x2 = false := by
      intro x2 hx2
      rcases hbase with rfl | ⟨hsh, _, rfl⟩ <;> simp at hx2
      · rcases hx2 with rfl | rfl | rfl <;> rfl
      · rcases hx2 with rfl | rfl | rfl | rfl <;> rfl
    have ht1base : ∀ x2 ∈ t1 ++ base, isFateEvent x2 = false := by
      intro x2 hx2
      rcases List.mem_append.mp hx2 with hx2 | hx2
      exacts [hplumb _ _ hg x2 hx2, hbasefate x2 hx2]
    have hcons : (∃ xs2, xs = (t1 ++ base) ++ xs2 ∧ xs2 = []) →
      (∃ xs2 T2 s, xs = xs2 ++ [TraceItem.trackerSend T2 s]) ∨
      (∃ (xs2 : List TraceItem) (d : BundleTxDetails) (id3 nl3 k3 : Nat)
          (f3 : Option GasFees) (s : Nat),
        xs = xs2 ++ [TraceItem.trackerSend d.tx s,
                     TraceItem.event (.formed_bundle id3 (some d) nl3 k3 f3)]) := by
      rintro ⟨xs2, hxs, rfl⟩
      rcases hbase with rfl | ⟨hsh, _, rfl⟩
      · left
        refine ⟨t1 ++ [TraceItem.metric .bundle_txns_sent,
          TraceItem.gaugeFees btx.tx.fees], btx.tx, btx.expected_storage, ?_⟩
        rw [hxs]
        simp
      · right
        refine ⟨t1 ++ [TraceItem.metric .bundle_txns_sent,
            TraceItem.gaugeFees btx.tx.fees],
          { tx_hash := hsh, tx := btx.tx, op_hashes := btx.op_hashes },
          cfg.id, low64 nonce, k, f, btx.expected_storage, ?_⟩
        rw [hxs]
        simp
    rcases hout with ⟨m, hstep⟩ | ⟨u, hu, hstep⟩
    · rw [hstep] at h
      injection h with h1 h2
      subst h1
      have hmem := mined_mem_of_split _ xs ys _ hT
      rw [ht1base x hmem] at hx
      simp at hx
    · have hA := hstep.symm.trans h
      cases u with
      | Mined h3 n3 gf b3 a3 =>
        rw [afterUpdate_mined] at hA
        injection hA with h1 h2
        rw [← h1] at hT
        obtain ⟨xs2, hxs, hsplit⟩ := split_skipP isFateEvent (t1 ++ base) _ xs ys x
          hT ht1base hx
        apply hcons
        refine ⟨xs2, hxs, ?_⟩
        cases xs2 with
        | nil => rfl
        | cons c xs2 =>
          cases xs2 with
          | nil =>
            simp at hsplit
            obtain ⟨-, h4, -⟩ := hsplit
            rw [← h4] at hx
            simp [isFateEvent] at hx
          | cons c2 xs2 =>
            have hlen := congrArg List.length hsplit
            simp at hlen
      | StillPendingAfterWait =>
        rw [afterUpdate_pending] at hA
        injection hA with h1 h2
        rw [← h1] at hT
        obtain ⟨xs2, hxs, hsplit⟩ := split_skipP isFateEvent (t1 ++ base) _ xs ys x
          hT ht1base hx
        cases xs2 with
        | nil =>
          simp at hsplit
          obtain ⟨h4, -⟩ := hsplit
          rw [← h4] at hx
          simp [isFateEvent] at hx
        | cons c xs2 =>
          have hlen := congrArg List.length hsplit
          simp at hlen
      | LatestTxDropped n3 =>
        rw [afterUpdate_dropped] at hA
        injection hA with h1 h2
        rw [← h1] at hT
        obtain ⟨xs2, hxs, hsplit⟩ := split_skipP isFateEvent (t1 ++ base) _ xs ys x
          hT ht1base hx
        apply hcons
        refine ⟨xs2, hxs, ?_⟩
        cases xs2 with
        | nil => rfl
        | cons c xs2 =>
          cases xs2 with
          | nil =>
            simp at hsplit
            obtain ⟨-, h4, -⟩ := hsplit
            rw [← h4] at hx
            simp [isFateEvent] at hx
          | cons c2 xs2 =>
            cases xs2 with
            | nil =>
              simp at hsplit
              obtain ⟨-, -, h4, -⟩ := hsplit
              rw [← h4] at hx
              simp [isFateEvent] at hx
            | cons c3 xs2 =>
              have hlen := congrArg List.length hsplit
              simp at hlen
      | NonceUsedForOtherTx n3 =>
        rw [afterUpdate_nonce_used] at hA
        injection hA with h1 h2
        rw [← h1] at hT
        obtain ⟨xs2, hxs, hsplit⟩ := split_skipP isFateEvent (t1 ++ base) _ xs ys x
          hT ht1base hx
        apply hcons
        refine ⟨xs2, hxs, ?_⟩
        cases xs2 with
        | nil => rfl
        | cons c xs2 =>
          cases xs2 with
          | nil =>
            simp at hsplit
            obtain ⟨-, h4, -⟩ := hsplit
            rw [← h4] at hx
            simp [isFateEvent] at hx
          | cons c2 xs2 =>
            have hlen := congrArg List.length hsplit
            simp at hlen

/-- In the escalation loop's trace, every fate event directly follows either
the `formed_bundle` event carrying the submitted transaction's details (the
`TxHash` path) or the bare `trackerSend` call (the synchronous path). -/
lemma innerLoop_fate_pred (cfg : BuilderConfig) (attempts : Nat → AttemptEnv)
    (nonce : Nat) :
    ∀ fuel f ioc k xs x ys,
      (innerLoop cfg attempts nonce f ioc k fuel).1 = xs ++ x :: ys →
      isFateEvent x = true →
      (∃ xs2 T2 s, xs = xs2 ++ [TraceItem.trackerSend T2 s]) ∨
      (∃ (xs2 : List TraceItem) (d : BundleTxDetails) (id3 nl3 k3 : Nat)
          (f3 : Option GasFees) (s : Nat),
        xs = xs2 ++ [TraceItem.trackerSend d.tx s,
                     TraceItem.event (.formed_bundle id3 (some d) nl3 k3 f3)]) := by
  intro fuel
  induction fuel with
  | zero =>
    intro f ioc k xs x ys h hx
    rw [innerLoop_zero] at h
    have hmem := mined_mem_of_split _ xs ys _ h
    simp at hmem
    rw [hmem] at hx
    simp [isFateEvent] at hx
  | succ fuel ih =>
    intro f ioc k xs x ys h hx
    rcases hstep : attemptStep cfg (attempts k) nonce f ioc k with ⟨T, e⟩
    cases e with
    | ret r =>
      rw [innerLoop_ret cfg attempts nonce f ioc k fuel T r hstep] at h
      dsimp at h
      exact attemptStep_fate_pred cfg (attempts k) nonce f ioc k T _ hstep xs x ys h hx
    | err m =>
      rw [innerLoop_err cfg attempts nonce f ioc k fuel T m hstep] at h
      dsimp at h
      exact attemptStep_fate_pred cfg (attempts k) nonce f ioc k T _ hstep xs x ys h hx
    | bump n cf =>
      rw [innerLoop_bump cfg attempts nonce f ioc k fuel T n cf hstep] at h
      dsimp at h
      rcases List.append_eq_append_iff.mp h with ⟨a2, hxs, hrec⟩ | ⟨c2, hT, hcons2⟩
      · rcases ih _ _ _ a2 x ys hrec hx with
          ⟨xs2, T2, s, hh⟩ | ⟨xs2, d, id3, nl3, k3, f3, s, hh⟩
        · exact Or.inl ⟨T ++ xs2, T2, s, by rw [hxs, hh]; simp⟩
        · exact Or.inr ⟨T ++ xs2, d, id3, nl3, k3, f3, s, by rw [hxs, hh]; simp⟩
      · cases c2 with
        | nil =>
          simp at hcons2
          rcases ih _ _ _ [] x ys hcons2.symm hx with
            ⟨xs2, T2, s, hh⟩ | ⟨xs2, d, id3, nl3, k3, f3, s, hh⟩ <;> simp at hh
        | cons x2 c2 =>
          injection hcons2 with h1 h2
          subst h1
          exact attemptStep_fate_pred cfg (attempts k) nonce f ioc k T _ hstep
            xs x c2 hT hx

/-- C8 (amended): in every `send_bundle_with_increasing_gas_fees` trace,
(1) a `transaction_mined` event ends the call — only the success counter
follows it — so every `formed_bundle` event carrying transaction details
occurs strictly before it; and (2) every fate event (`transaction_mined`,
`latest_transaction_dropped`, `nonce_used_for_other_transaction`) directly
follows either the `formed_bundle` event carrying the details of the
transaction whose update it classifies — itself directly following that
transaction's `send_transaction` call, the `TxHash` path — or the bare
`send_transaction` call when the tracker resolved the submission
synchronously, in which case no `formed_bundle` event was emitted for it. -/
theorem claim8_amended (cfg : BuilderConfig) (env : Env) :
    (∀ xs id2 h2 nl b ys,
      (send_bundle_with_increasing_gas_fees cfg env).1 =
        xs ++ TraceItem.event (.transaction_mined id2 h2 nl b) :: ys →
      ys = [TraceItem.metric .bundle_txns_success] ∧
      ∀ x ∈ (send_bundle_with_increasing_gas_fees cfg env).1,
        ∀ idf d nlf kf ff, x = TraceItem.event (.formed_bundle idf (some d) nlf kf ff) →
          x ∈ xs) ∧
    (∀ xs x ys,
      (send_bundle_with_increasing_gas_fees cfg env).1 = xs ++ x :: ys →
      isFateEvent x = true →
      (∃ xs2 T2 s, xs = xs2 ++ [TraceItem.trackerSend T2 s]) ∨
      (∃ (xs2 : List TraceItem) (d : BundleTxDetails) (idf nlf kf : Nat)
          (ff : Option GasFees) (s : Nat),
        xs = xs2 ++ [TraceItem.trackerSend d.tx s,
                     TraceItem.event (.formed_bundle idf (some d) nlf kf ff)])) := by
  constructor
  · intro xs id2 h2 nl b ys h
    have hys : ys = [TraceItem.metric .bundle_txns_success] := by
      unfold send_bundle_with_increasing_gas_fees
        send_bundle_with_increasing_gas_fees_inner at h
      rcases hnf : env.nonce_fees with e | ⟨nonce, fees0⟩ <;> rw [hnf] at h <;>
        dsimp only at h
      · have := mined_mem_of_split _ xs ys _ h
        simp at this
      · rcases hrun : innerLoop cfg env.attempts nonce fees0 none 0
            (cfg.max_fee_increases + 1) with ⟨t, r⟩
        rw [hrun] at h
        have ht : TraceItem.nonceQuery :: t =
            xs ++ TraceItem.event (.transaction_mined id2 h2 nl b) :: ys := by
          cases r <;> exact h
        cases xs with
        | nil =>
          simp at ht
        | cons c xs =>
          simp at ht
          obtain ⟨-, ht2⟩ := ht
          exact innerLoop_mined_last cfg env.attempts nonce (cfg.max_fee_increases + 1)
            fees0 none 0 xs id2 h2 nl b ys (by rw [hrun]; exact ht2)
    refine ⟨hys, ?_⟩
    intro x hx idf d nlf kf ff hform
    rw [h] at hx
    rcases List.mem_append.mp hx with hx | hx
    · exact hx
    · subst hform
      subst hys
      simp at hx
  · intro xs x ys h hx
    unfold send_bundle_with_increasing_gas_fees
      send_bundle_with_increasing_gas_fees_inner at h
    rcases hnf : env.nonce_fees with e | ⟨nonce, fees0⟩ <;> rw [hnf] at h <;>
      dsimp only at h
    · have hmem := mined_mem_of_split _ xs ys _ h
      simp at hmem
      rw [hmem] at hx
      simp [isFateEvent] at hx
    · rcases hrun : innerLoop cfg env.attempts nonce fees0 none 0
          (cfg.max_fee_increases + 1) with ⟨t, r⟩
      rw [hrun] at h
      have ht : TraceItem.nonceQuery :: t = xs ++ x :: ys := by
        cases r <;> exact h
      cases xs with
      | nil =>
        injection ht with h1 h2
        rw [← h1] at hx
        simp [isFateEvent] at hx
      | cons c xs =>
        injection ht with h1 h2
        rcases innerLoop_fate_pred cfg env.attempts nonce (cfg.max_fee_increases + 1)
            fees0 none 0 xs x ys (by rw [hrun]; exact h2) hx with
          ⟨xs2, T2, s, hh⟩ | ⟨xs2, d, idf, nlf, kf, ff, s, hh⟩
        · exact Or.inl ⟨c :: xs2, T2, s, by rw [hh]; rfl⟩
        · exact Or.inr ⟨c :: xs2, d, idf, nlf, kf, ff, s, by rw [hh]; rfl⟩

/-- The prefix of the fixture run up to its `transaction_mined` event. -/
def xs8 : List TraceItem :=
  [.nonceQuery, .proposerRequest none, .poolRemoveOps 3 [21003001],
   .poolRemoveEntities 3 [31], .metric .bundle_txns_sent,
   .gaugeFees { max_fee_per_gas := 10, max_priority_fee_per_gas := 1 },
   .trackerSend btxX.tx 0, formedX]

/-- Witness for the amended C8 at a concrete input: the fixture run's mined
event directly follows the `formed_bundle` event of the submitted
transaction. -/
theorem claim8_witness :
    ((send_bundle_with_increasing_gas_fees cfgX envX).1 =
      xs8 ++ TraceItem.event (.transaction_mined 7 99 5 1000) ::
        [TraceItem.metric .bundle_txns_success]) ∧
    isFateEvent (TraceItem.event (.transaction_mined 7 99 5 1000)) = true ∧
    ((∃ xs2 T2 s, xs8 = xs2 ++ [TraceItem.trackerSend T2 s]) ∨
     (∃ (xs2 : List TraceItem) (d : BundleTxDetails) (idf nlf kf : Nat)
         (ff : Option GasFees) (s : Nat),
       xs8 = xs2 ++ [TraceItem.trackerSend d.tx s,
                     TraceItem.event (.formed_bundle idf (some d) nlf kf ff)])) :=
  ⟨by decide, rfl,
   (claim8_amended cfgX envX).2 xs8
     (TraceItem.event (.transaction_mined 7 99 5 1000))
     [TraceItem.metric .bundle_txns_success] (by decide) rfl⟩

end BundleSender
